import Mathlib

/-!
Verification of the query construction and rendering engine of the `bun`
query builder (files `query_select.go`, `model_map_slice.go`, and the
`ValuesQuery` part of the bulk value encoder).

SQL text is modelled as `List Char`.  Machinery that lives outside the
given source files (the `sqlfmt` formatter, the schema registry, the
relation-join bookkeeping of `baseQuery` / `whereBaseQuery`) is modelled
from the specification; every such definition carries a doc comment
starting with `Modelled from the spec:`.  Everything else is a direct
translation of the Go source.
-/

namespace Bun

/-- SQL text and identifiers are byte strings; we model them as `List Char`. -/
abbrev Str := List Char

/-- Number of generic placeholder tokens `?` in a piece of SQL text. -/
def phCount (t : Str) : Nat := t.count '?'

/-- Substitute the leading placeholders of `t` by the texts `vs`, in order:
each `?` of `t` consumes the next element of `vs` and is replaced by it
verbatim; when `vs` is exhausted the remaining `?` are kept. -/
def subst : Str → List Str → Str
  | [], _ => []
  | c :: t, vs =>
    if c = '?' then
      match vs with
      | v :: vs' => v ++ subst t vs'
      | [] => '?' :: subst t []
    else
      c :: subst t vs

/-- `bytes.TrimSuffix`: drop `suf` from the end of `b` when it is a suffix. -/
def trimSuffix (b suf : Str) : Str :=
  if suf.isSuffixOf b then b.take (b.length - suf.length) else b

/-- Decimal digit character. -/
def digitChar (d : Nat) : Char := Char.ofNat (48 + d)

/-- Fuelled decimal rendering of a natural number (fuel `n+1` always suffices). -/
def natDigitsAux : Nat → Nat → Str
  | 0, _ => []
  | fuel + 1, n =>
    if n < 10 then [digitChar n]
    else natDigitsAux fuel (n / 10) ++ [digitChar (n % 10)]

/-- Decimal rendering of a natural number, as produced by `strconv`. -/
def natDigits (n : Nat) : Str := natDigitsAux (n + 1) n

/-- `strconv.AppendInt`: decimal rendering of an integer. -/
def intDigits (i : Int) : Str :=
  if i < 0 then '-' :: natDigits i.natAbs else natDigits i.toNat

/-- Go `int32(n)` conversion: wrap an integer into `[-2^31, 2^31)`. -/
def toInt32 (n : Int) : Int := (n + 2 ^ 31) % 2 ^ 32 - 2 ^ 31

/-- Lexicographic (byte-wise) order on character lists, as used by Go's
`sort.Strings` on the rendered key bytes. -/
def lexLe : Str → Str → Bool
  | [], _ => true
  | _ :: _, [] => false
  | a :: as_, b :: bs => if a < b then true else if b < a then false else lexLe as_ bs

/-- Insert a key into a lexicographically sorted list of keys. -/
def insertSorted (s : Str) : List Str → List Str
  | [] => [s]
  | t :: ts => if lexLe s t then s :: t :: ts else t :: insertSorted s ts

/-- Modelled from the spec: the deterministic sorted key order produced by
`sort.Strings` (the Go standard library sort is outside the repository);
on duplicate-free key sets insertion sort yields the same sorted sequence. -/
def sortKeys : List Str → List Str
  | [] => []
  | s :: ss => insertSorted s (sortKeys ss)

/-- First value bound to a key in an association list (a Go map snapshot). -/
def lookupKey (k : Str) : List (Str × Str) → Option Str
  | [] => none
  | (k', v) :: rest => if k' = k then some v else lookupKey k rest

/-- Separator-joined concatenation (`strings.Join` shape). -/
def sepJoin (sep : Str) : List Str → Str
  | [] => []
  | [x] => x
  | x :: y :: r => x ++ sep ++ sepJoin sep (y :: r)

/-- Comma-separated concatenation. -/
def commaSep (xs : List Str) : Str := sepJoin ", ".toList xs

/-! ## Formatter bridge and query nodes

`sqlfmt` is not part of the given sources; nodes and the two formatter
modes are modelled from the spec (§3, §4.2). -/

/-- Modelled from the spec: the dual-mode formatter bridge.  `nop` is the
placeholder ("template") formatter, `literal` interpolates dialect-quoted
literals.  The dialect-specific quoting itself is an external collaborator,
so argument values are carried already quoted (as text). -/
inductive Fmter where
  | nop
  | literal
deriving DecidableEq

/-- `sqlfmt.IsNopFormatter`. -/
def Fmter.isNop : Fmter → Bool
  | .nop => true
  | .literal => false

/-- Modelled from the spec: a query node (`sqlfmt.QueryWithArgs`): a raw SQL
template plus optional positional arguments.  `args = none` corresponds to a
Go `nil` argument slice (identifier nodes and argument-free templates);
arguments are carried as their dialect-quoted literal text. -/
structure QueryWithArgs where
  query : Str
  args : Option (List Str)
deriving DecidableEq

/-- `sqlfmt.SafeQuery`. -/
def SafeQuery (q : Str) (args : Option (List Str)) : QueryWithArgs := ⟨q, args⟩

/-- `sqlfmt.UnsafeIdent`: a caller-supplied identifier rendered verbatim,
never escaped as a value (spec §3). -/
def UnsafeIdent (s : Str) : QueryWithArgs := ⟨s, none⟩

/-- Modelled from the spec: rendering one node (§4.2).  In placeholder mode
the template is emitted unchanged, so each argument position stays a `?`;
in literal mode each `?` is replaced by the next quoted literal.  A node
with a `nil` argument slice is rendered verbatim in both modes. -/
def QueryWithArgs.render (n : QueryWithArgs) (f : Fmter) : Str :=
  match n.args with
  | none => n.query
  | some vs =>
    match f with
    | .nop => n.query
    | .literal => subst n.query vs

/-- Argument list of a node (empty for a `nil` slice). -/
def QueryWithArgs.argList (n : QueryWithArgs) : List Str := n.args.getD []

/-- Modelled from the spec: `sqlfmt.QueryWithSep`, a node plus the separator
used when concatenated with siblings. -/
structure QueryWithSep where
  node : QueryWithArgs
  sep : Str
deriving DecidableEq

/-- `sqlfmt.SafeQueryWithSep`. -/
def SafeQueryWithSep (q : Str) (args : Option (List Str)) (sep : Str) : QueryWithSep :=
  ⟨⟨q, args⟩, sep⟩

/-! ## Schema metadata and join descriptors

The schema registry is an external collaborator (spec §6); tables, fields
and relation-join descriptors are modelled from the spec. -/

/-- Modelled from the spec: schema field metadata — Go name, SQL name, and
the declared user SQL type (empty when none is declared). -/
structure Field where
  name : Str
  sqlName : Str
  userSQLType : Str
deriving DecidableEq

/-- Modelled from the spec: schema table metadata with the field list and
alias; `FieldMap` is realised by name lookup in the field list. -/
structure Table where
  sqlNameForSelects : Str
  alias_ : Str
  fields : List Field
deriving DecidableEq

/-- `table.FieldMap[name]` lookup. -/
def Table.fieldMap (t : Table) (k : Str) : Option Field :=
  t.fields.find? (fun f => f.name = k)

/-- `schema.RelationType`. -/
inductive RelType where
  | hasOne
  | belongsTo
  | hasMany
  | manyToMany
deriving DecidableEq

mutual
/-- Modelled from the spec: a relation join descriptor (§3): relation name
and type, related table metadata, synthesized alias, the column subset the
caller scoped (already rendered into nodes by the scoping call), the ON
condition node, and the related model's own join descriptors. -/
inductive Join where
  | mk (name : Str) (relType : RelType) (table : Table) (alias_ : Str)
      (columns : List QueryWithArgs) (onCond : QueryWithArgs) (children : Joins)

/-- A list of join descriptors (`tableModel.GetJoins()`). -/
inductive Joins where
  | nil
  | cons (j : Join) (rest : Joins)
end

def Join.name : Join → Str
  | .mk n _ _ _ _ _ _ => n

def Join.relType : Join → RelType
  | .mk _ r _ _ _ _ _ => r

def Join.table : Join → Table
  | .mk _ _ t _ _ _ _ => t

def Join.alias_ : Join → Str
  | .mk _ _ _ a _ _ _ => a

def Join.columns : Join → List QueryWithArgs
  | .mk _ _ _ _ c _ _ => c

def Join.onCond : Join → QueryWithArgs
  | .mk _ _ _ _ _ c _ => c

def Join.children : Join → Joins
  | .mk _ _ _ _ _ _ ch => ch

/-- Modelled from the spec: the table model bound by `Model`: the root
table's metadata plus its declared join descriptors. -/
structure TableModel where
  table : Table
  joins : Joins

mutual
/-- `SelectQuery._forEachHasOneJoin` as a flattening: visit has-one and
belongs-to descriptors depth-first (recursing into the join model's own
joins), skipping has-many / many-to-many descriptors. -/
def hasOneFlat : Joins → List Join
  | .nil => []
  | .cons j rest =>
    (match j.relType with
     | .hasOne => j :: hasOneFlatJ j
     | .belongsTo => j :: hasOneFlatJ j
     | _ => []) ++ hasOneFlat rest

def hasOneFlatJ : Join → List Join
  | .mk _ _ _ _ _ _ ch => hasOneFlat ch
end

/-- Look up a relation descriptor by name (`tableModel.Join(name, fn)`;
modelled from the spec: unknown names yield no descriptor). -/
def Joins.findByName (name : Str) : Joins → Option Join
  | .nil => none
  | .cons j rest => if j.name = name then some j else Joins.findByName name rest

/-! ## The SELECT query AST (`SelectQuery`, `query_select.go`) -/

/-- `joinQuery`: one manual `Join` clause and its accumulated ON conditions. -/
structure JoinQuery where
  join : QueryWithArgs
  onList : List QueryWithSep
deriving DecidableEq

mutual
/-- The `SelectQuery` AST: sticky error, clause lists, limit/offset and the
union descriptors, exactly the fields `query_select.go` renders.  The
`err`, `columns`, `table`, `modelTable`, `tables` and where-list fields live
in the embedded `whereBaseQuery`/`baseQuery` in Go. -/
inductive SelectQuery where
  | mk (err : Option Str)
      (distinctOn : Option (List QueryWithArgs))
      (columns : List QueryWithArgs)
      (table : Option Table)
      (tableModel : Option TableModel)
      (modelTable : Option QueryWithArgs)
      (tables : List QueryWithArgs)
      (joins : List JoinQuery)
      (whereList : List QueryWithSep)
      (group : List QueryWithArgs)
      (having : List QueryWithArgs)
      (order : List QueryWithArgs)
      (limit : Int)
      (offset : Int)
      (selFor : Option QueryWithArgs)
      (unions : Unions)

/-- The union descriptor list: operator keyword text paired with another
complete query (`[]union` in Go). -/
inductive Unions where
  | nil
  | cons (expr : Str) (q : SelectQuery) (rest : Unions)
end

namespace SelectQuery

def err : SelectQuery → Option Str
  | .mk e _ _ _ _ _ _ _ _ _ _ _ _ _ _ _ => e

def distinctOn : SelectQuery → Option (List QueryWithArgs)
  | .mk _ d _ _ _ _ _ _ _ _ _ _ _ _ _ _ => d

def columns : SelectQuery → List QueryWithArgs
  | .mk _ _ c _ _ _ _ _ _ _ _ _ _ _ _ _ => c

def table : SelectQuery → Option Table
  | .mk _ _ _ t _ _ _ _ _ _ _ _ _ _ _ _ => t

def tableModel : SelectQuery → Option TableModel
  | .mk _ _ _ _ tm _ _ _ _ _ _ _ _ _ _ _ => tm

def modelTable : SelectQuery → Option QueryWithArgs
  | .mk _ _ _ _ _ mt _ _ _ _ _ _ _ _ _ _ => mt

def tables : SelectQuery → List QueryWithArgs
  | .mk _ _ _ _ _ _ ts _ _ _ _ _ _ _ _ _ => ts

def joins : SelectQuery → List JoinQuery
  | .mk _ _ _ _ _ _ _ js _ _ _ _ _ _ _ _ => js

def whereList : SelectQuery → List QueryWithSep
  | .mk _ _ _ _ _ _ _ _ w _ _ _ _ _ _ _ => w

def group : SelectQuery → List QueryWithArgs
  | .mk _ _ _ _ _ _ _ _ _ g _ _ _ _ _ _ => g

def having : SelectQuery → List QueryWithArgs
  | .mk _ _ _ _ _ _ _ _ _ _ h _ _ _ _ _ => h

def order : SelectQuery → List QueryWithArgs
  | .mk _ _ _ _ _ _ _ _ _ _ _ o _ _ _ _ => o

def limit : SelectQuery → Int
  | .mk _ _ _ _ _ _ _ _ _ _ _ _ l _ _ _ => l

def offset : SelectQuery → Int
  | .mk _ _ _ _ _ _ _ _ _ _ _ _ _ o _ _ => o

def selFor : SelectQuery → Option QueryWithArgs
  | .mk _ _ _ _ _ _ _ _ _ _ _ _ _ _ s _ => s

def unions : SelectQuery → Unions
  | .mk _ _ _ _ _ _ _ _ _ _ _ _ _ _ _ u => u

/-- `NewSelectQuery`: the freshly built query. -/
def new : SelectQuery :=
  .mk none none [] none none none [] [] [] [] [] [] 0 0 none .nil

/-- `Model`: bind a table model (`setTableModel` sets both the model and the
schema table; the reflection step is the external schema registry). -/
def Model (tm : TableModel) : SelectQuery → SelectQuery
  | .mk e d c _ _ mt ts js w g h o l of s u =>
    .mk e d c (some tm.table) (some tm) mt ts js w g h o l of s u

/-- `Column`: add identifier column nodes. -/
def Column (cols : List Str) : SelectQuery → SelectQuery
  | .mk e d c t tm mt ts js w g h o l of s u =>
    .mk e d (c ++ cols.map UnsafeIdent) t tm mt ts js w g h o l of s u

/-- `ColumnExpr`: add one safe column node. -/
def ColumnExpr (q : Str) (args : Option (List Str)) : SelectQuery → SelectQuery
  | .mk e d c t tm mt ts js w g h o l of s u =>
    .mk e d (c ++ [SafeQuery q args]) t tm mt ts js w g h o l of s u

/-- `TableExpr`: add one safe table node. -/
def TableExpr (q : Str) (args : Option (List Str)) : SelectQuery → SelectQuery
  | .mk e d c t tm mt ts js w g h o l of s u =>
    .mk e d c t tm mt (ts ++ [SafeQuery q args]) js w g h o l of s u

/-- `Where` (`addWhere` with an `" AND "` separator; the flat where list of
`whereBaseQuery` is modelled from the spec §4.1). -/
def Where (cond : Str) (args : Option (List Str)) : SelectQuery → SelectQuery
  | .mk e d c t tm mt ts js w g h o l of s u =>
    .mk e d c t tm mt ts js (w ++ [SafeQueryWithSep cond args (" AND ".toList)]) g h o l of s u

/-- `WhereOr`. -/
def WhereOr (cond : Str) (args : Option (List Str)) : SelectQuery → SelectQuery
  | .mk e d c t tm mt ts js w g h o l of s u =>
    .mk e d c t tm mt ts js (w ++ [SafeQueryWithSep cond args (" OR ".toList)]) g h o l of s u

/-- `Distinct`: a non-nil empty distinct-on list renders plain `DISTINCT`. -/
def Distinct : SelectQuery → SelectQuery
  | .mk e _ c t tm mt ts js w g h o l of s u =>
    .mk e (some []) c t tm mt ts js w g h o l of s u

/-- `DistinctOn`. -/
def DistinctOn (q : Str) (args : Option (List Str)) : SelectQuery → SelectQuery
  | .mk e d c t tm mt ts js w g h o l of s u =>
    .mk e (some (d.getD [] ++ [SafeQuery q args])) c t tm mt ts js w g h o l of s u

/-- `Group`. -/
def Group (cols : List Str) : SelectQuery → SelectQuery
  | .mk e d c t tm mt ts js w g h o l of s u =>
    .mk e d c t tm mt ts js w (g ++ cols.map UnsafeIdent) h o l of s u

/-- `Having`. -/
def Having (q : Str) (args : Option (List Str)) : SelectQuery → SelectQuery
  | .mk e d c t tm mt ts js w g h o l of s u =>
    .mk e d c t tm mt ts js w g (h ++ [SafeQuery q args]) o l of s u

/-- `Order`. -/
def Order (cols : List Str) : SelectQuery → SelectQuery
  | .mk e d c t tm mt ts js w g h o l of s u =>
    .mk e d c t tm mt ts js w g h (o ++ cols.map UnsafeIdent) l of s u

/-- `Limit`: sets (does not accumulate) the limit, through Go's `int32`. -/
def Limit (n : Int) : SelectQuery → SelectQuery
  | .mk e d c t tm mt ts js w g h o _ of s u =>
    .mk e d c t tm mt ts js w g h o (toInt32 n) of s u

/-- `Offset`. -/
def Offset (n : Int) : SelectQuery → SelectQuery
  | .mk e d c t tm mt ts js w g h o l _ s u =>
    .mk e d c t tm mt ts js w g h o l (toInt32 n) s u

/-- `For`. -/
def For (q : Str) (args : Option (List Str)) : SelectQuery → SelectQuery
  | .mk e d c t tm mt ts js w g h o l of _ u =>
    .mk e d c t tm mt ts js w g h o l of (some (SafeQuery q args)) u

/-- `Join`: append a manual join clause with no ON conditions yet. -/
def JoinFn (join : Str) (args : Option (List Str)) : SelectQuery → SelectQuery
  | .mk e d c t tm mt ts js w g h o l of s u =>
    .mk e d c t tm mt ts (js ++ [⟨SafeQuery join args, []⟩]) w g h o l of s u

/-- `joinOn`: fails the builder (setting the sticky error field, by direct
assignment as in the source) when no join exists yet, otherwise appends the
condition to the last join. -/
def joinOn (cond : Str) (args : Option (List Str)) (sep : Str) :
    SelectQuery → SelectQuery
  | .mk e d c t tm mt ts js w g h o l of s u =>
    match js.getLast? with
    | none => .mk (some "bun: query has no joins".toList) d c t tm mt ts js w g h o l of s u
    | some last =>
      .mk e d c t tm mt ts
        (js.dropLast ++ [⟨last.join, last.onList ++ [SafeQueryWithSep cond args sep]⟩])
        w g h o l of s u

/-- `JoinOn`. -/
def JoinOn (cond : Str) (args : Option (List Str)) (q : SelectQuery) : SelectQuery :=
  joinOn cond args (" AND ".toList) q

/-- The error text of `Relation` for an unknown relation name
(`fmt.Errorf("%s does not have relation=%q", q.table, name)`; the `%s`
rendering of `*schema.Table` is external, modelled as the table name). -/
def relationErr (tn name : Str) : Str :=
  tn ++ " does not have relation=".toList ++ '"' :: name ++ ['"']

/-- `Relation` (without an apply function): looks the relation name up in
the bound model's join descriptors and stores (by direct assignment) a
"does not have relation" error when it is not declared.  The descriptor
lookup itself lives in the external relation bookkeeping and is modelled
from the spec (§4.3 edge case). -/
def Relation (name : Str) (q : SelectQuery) : SelectQuery :=
  match q.tableModel with
  | none => q
  | some tm =>
    match tm.joins.findByName name with
    | some _ => q
    | none =>
      match q with
      | .mk _ d c t tm' mt ts js w g h o l of s u =>
        .mk (some (relationErr ((q.table.map Table.sqlNameForSelects).getD []) name))
          d c t tm' mt ts js w g h o l of s u

/-- `addUnion` (`Union`, `UnionAll`, …): append a union descriptor. -/
def addUnion (expr : Str) (other : SelectQuery) : SelectQuery → SelectQuery
  | .mk e d c t tm mt ts js w g h o l of s u =>
    .mk e d c t tm mt ts js w g h o l of s (unionsAppend u expr other)
where
  unionsAppend : Unions → Str → SelectQuery → Unions
    | .nil, ex, oq => .cons ex oq .nil
    | .cons ex0 q0 rest, ex, oq => .cons ex0 q0 (unionsAppend rest ex oq)

end SelectQuery

/-! ## Rendering (`SelectQuery.appendQuery` and helpers)

Each helper renders the bytes one block of `appendQuery` /
`appendColumns` / `appendTables` appends, as a function of the fields that
block reads. -/

/-- Modelled from the spec: `sqlfmt.AppendString` — a dialect-quoted SQL
string literal (escaping of inner quotes is the dialect's business). -/
def appendString (s : Str) : Str := '\'' :: s ++ ['\'']

/-- Modelled from the spec: `sqlfmt.AppendIdent` — identifier quoting is
dialect-specific and abstracted to the identifier bytes themselves. -/
def appendIdent (s : Str) : Str := s

/-- The package-level `appendColumns(b, table, fields)` helper of the query
package (modelled from the spec: the model's field list rendered as
`alias.sql_name` pairs, comma separated; a blank alias renders bare names). -/
def appendColumnsHelper (alias_ : Str) (fields : List Field) : Str :=
  commaSep (fields.map (fun fl => (if alias_.isEmpty then [] else alias_ ++ ['.']) ++ fl.sqlName))

/-- The `DISTINCT` / `DISTINCT ON (...)` block of `appendQuery`. -/
def distinctPart (d : Option (List QueryWithArgs)) (f : Fmter) : Str :=
  match d with
  | none => []
  | some l =>
    if l.isEmpty then "DISTINCT ".toList
    else "DISTINCT ON (".toList ++ commaSep (l.map (·.render f)) ++ ") ".toList

/-- One column node of `SelectQuery.appendColumns`: a node with a `nil`
argument slice whose template names a model field renders as
`alias.sql_name`; every other node renders itself. -/
def colNode (t : Option Table) (f : Fmter) (col : QueryWithArgs) : Str :=
  match col.args, t with
  | none, some tbl =>
    match tbl.fieldMap col.query with
    | some fl => tbl.alias_ ++ '.' :: fl.sqlName
    | none => col.render f
  | _, _ => col.render f

/-- The base column list of `SelectQuery.appendColumns`: explicit columns
if any; else the model's fields — abbreviated to a `'N columns'` string
literal under the Nop formatter when the table has more than 10 fields —
else a bare `*`. -/
def baseCols (c : List QueryWithArgs) (t : Option Table) (f : Fmter) : Str :=
  if c.isEmpty then
    match t with
    | some tbl =>
      if 10 < tbl.fields.length && f.isNop then
        tbl.alias_ ++ '.' :: appendString (natDigits tbl.fields.length ++ " columns".toList)
      else appendColumnsHelper tbl.alias_ tbl.fields
    | none => ['*']
  else
    commaSep (c.map (colNode t f))

/-- `SelectQuery.appendHasOneColumns`: the SELECT-list contribution of one
has-one join — the caller-scoped column nodes when present, otherwise every
field of the related table aliased `<relation-alias>__<field>`
(`appendAlias` / `appendAliasColumn` are modelled from the spec §4.3;
`join.applyQuery` has already scoped `join.columns`). -/
def hasOneColumnsB (f : Fmter) (j : Join) : Str :=
  if j.columns.isEmpty then
    commaSep (j.table.fields.map (fun fl =>
      appendIdent j.alias_ ++ '.' :: fl.sqlName ++ " AS ".toList ++
        appendIdent (j.alias_ ++ "__".toList ++ fl.name)))
  else
    commaSep (j.columns.map (·.render f))

/-- The buffer/marker loop of `SelectQuery.appendColumns` over the
flattened has-one joins: before a join's columns, a `", "` separator is
emitted exactly when bytes were appended since the marker, and the marker
is then moved past the separator. -/
def colsFold (f : Fmter) : List Join → Str → Nat → Str
  | [], b, _ => b
  | j :: js, b, start =>
    if b.length ≠ start then
      let b1 := b ++ ", ".toList
      colsFold f js (b1 ++ hasOneColumnsB f j) b1.length
    else
      colsFold f js (b ++ hasOneColumnsB f j) start

/-- The flattened has-one/belongs-to joins of the bound model. -/
def modelHasOneJoins (tm : Option TableModel) : List Join :=
  match tm with
  | none => []
  | some m => hasOneFlat m.joins

/-- `SelectQuery.appendColumns`, as the block of bytes it appends: base
columns, then each flattened has-one join's columns, with a final
`TrimSuffix ", "`.  (In Go the trim acts on the whole buffer; the
surrounding prefix always ends in `"SELECT "` or `"DISTINCT "` or `") "`,
never in `", "`, so trimming the appended block is the same.) -/
def appendColumnsB (c : List QueryWithArgs) (t : Option Table)
    (tm : Option TableModel) (f : Fmter) : Str :=
  trimSuffix (colsFold f (modelHasOneJoins tm) (baseCols c t f) 0) ", ".toList

/-- `baseQuery.modelHasTableName` (modelled from the spec: a model table
expression or a schema table is bound). -/
def modelHasTableName (t : Option Table) (mt : Option QueryWithArgs) : Bool :=
  mt.isSome || t.isSome

/-- `baseQuery.hasTables`. -/
def hasTablesB (t : Option Table) (mt : Option QueryWithArgs)
    (ts : List QueryWithArgs) : Bool :=
  modelHasTableName t mt || !ts.isEmpty

/-- The `len(b) > startLen` comma fold of `SelectQuery.appendTables`. -/
def tablesFold (f : Fmter) : List QueryWithArgs → Str → Str
  | [], b => b
  | n :: ns, b =>
    tablesFold f ns ((if 0 < b.length then b ++ ", ".toList else b) ++ n.render f)

/-- The model-table piece of `SelectQuery.appendTables`: the explicit
`ModelTableExpr` node, or the schema table name plus an `AS` alias when
the alias differs. -/
def modelTablePart (t : Option Table) (mt : Option QueryWithArgs) (f : Fmter) : Str :=
  if modelHasTableName t mt then
    match mt with
    | some n => n.render f
    | none =>
      match t with
      | some tbl =>
        tbl.sqlNameForSelects ++
          (if tbl.alias_ ≠ tbl.sqlNameForSelects then " AS ".toList ++ tbl.alias_ else [])
      | none => []
  else []

/-- `SelectQuery.appendTables`: the `FROM` block — the model table piece,
then the explicit tables, comma separated by the buffer-length check. -/
def appendTablesB (t : Option Table) (mt : Option QueryWithArgs)
    (ts : List QueryWithArgs) (f : Fmter) : Str :=
  if hasTablesB t mt ts then
    " FROM ".toList ++ tablesFold f ts (modelTablePart t mt f)
  else []

/-- Modelled from the spec: `join.appendHasOneJoin` — the
`JOIN <related-table> AS <alias> ON (<condition>)` fragment (§4.3). -/
def hasOneJoinFrag (f : Fmter) (j : Join) : Str :=
  "JOIN ".toList ++ j.table.sqlNameForSelects ++ " AS ".toList ++ j.alias_ ++
    " ON (".toList ++ j.onCond.render f ++ [')']

/-- The `forEachHasOneJoin` loop of `appendQuery`: a space then each
has-one join fragment, depth first. -/
def hasOneJoinsB (tm : Option TableModel) (f : Fmter) : Str :=
  ((modelHasOneJoins tm).map (fun j => ' ' :: hasOneJoinFrag f j)).flatten

/-- A separator-joined, parenthesized condition list: the rendering loop
shared by `joinQuery.AppendQuery`'s ON block and the WHERE block — the
leading element bare, each further element preceded by its own separator. -/
def sepParenList (f : Fmter) : List QueryWithSep → Str
  | [] => []
  | o :: os =>
    '(' :: o.node.render f ++ [')'] ++
      (os.map (fun o2 => o2.sep ++ '(' :: o2.node.render f ++ [')'])).flatten

/-- `joinQuery.AppendQuery`: a space, the join clause, and its ON list. -/
def joinQueryB (f : Fmter) (jq : JoinQuery) : Str :=
  ' ' :: jq.join.render f ++
    (if jq.onList.isEmpty then [] else " ON ".toList ++ sepParenList f jq.onList)

/-- The manual-join block of `appendQuery`. -/
def joinsB (js : List JoinQuery) (f : Fmter) : Str :=
  (js.map (joinQueryB f)).flatten

/-- Modelled from the spec: `whereBaseQuery.appendWhere` — a flat WHERE
list, each predicate parenthesized and AND/OR-joined by its separator
(§4.1; the query-hook test renders `WHERE ('foo' = 'bar')`). -/
def whereB (w : List QueryWithSep) (f : Fmter) : Str :=
  if w.isEmpty then [] else " WHERE ".toList ++ sepParenList f w

/-- The `GROUP BY` block of `appendQuery`. -/
def groupB (g : List QueryWithArgs) (f : Fmter) : Str :=
  if g.isEmpty then [] else " GROUP BY ".toList ++ commaSep (g.map (·.render f))

/-- The `HAVING` block of `appendQuery`: parenthesized, `" AND "`-joined. -/
def havingB (h : List QueryWithArgs) (f : Fmter) : Str :=
  if h.isEmpty then []
  else " HAVING ".toList ++
    sepJoin " AND ".toList (h.map (fun n => '(' :: n.render f ++ [')']))

/-- `SelectQuery.appendOrder`. -/
def orderB (o : List QueryWithArgs) (f : Fmter) : Str :=
  if o.isEmpty then [] else " ORDER BY ".toList ++ commaSep (o.map (·.render f))

/-- The `LIMIT` block: rendered only for a non-zero limit. -/
def limitB (l : Int) : Str :=
  if l ≠ 0 then " LIMIT ".toList ++ intDigits l else []

/-- The `OFFSET` block: rendered only for a non-zero offset. -/
def offsetB (o : Int) : Str :=
  if o ≠ 0 then " OFFSET ".toList ++ intDigits o else []

/-- The `FOR` block. -/
def forB (s : Option QueryWithArgs) (f : Fmter) : Str :=
  match s with
  | none => []
  | some n => " FOR ".toList ++ n.render f

def Unions.isNil : Unions → Bool
  | .nil => true
  | .cons _ _ _ => false

mutual
/-- `SelectQuery.appendQuery`, restricted to the bytes it appends (the
sticky-error short circuit is `findErr` below).  `count` is the COUNT
rendering flag; union members always render with `count = false` because
they go through the public `AppendQuery`.  (`appendWith` is not part of
the given sources and the spec's clause-list data model (§2, §3) has no
WITH list, so CTEs added by `With` are not modelled.) -/
def renderBody : SelectQuery → Fmter → Bool → Str
  | .mk _ d c t tm mt ts js w g h o l of s u, f, count =>
    let cteCount := count && (!g.isEmpty || d.isSome)
    (if cteCount then "WITH _count_wrapper AS (".toList else []) ++
    (if u.isNil then [] else ['(']) ++
    "SELECT ".toList ++
    distinctPart d f ++
    (if count && !cteCount then "count(*)".toList else appendColumnsB c t tm f) ++
    appendTablesB t mt ts f ++
    hasOneJoinsB tm f ++
    joinsB js f ++
    whereB w f ++
    groupB g f ++
    havingB h f ++
    (if count then [] else orderB o f ++ limitB l ++ offsetB of ++ forB s f) ++
    (if u.isNil then [] else ')' :: renderUnions u f) ++
    (if cteCount then ") SELECT count(*) FROM _count_wrapper".toList else [])

/-- The union tail of `appendQuery`: each member's operator keyword and its
parenthesized rendering. -/
def renderUnions : Unions → Fmter → Str
  | .nil, _ => []
  | .cons ex uq rest, f =>
    ex ++ '(' :: renderBody uq f false ++ [')'] ++ renderUnions rest f
end

mutual
/-- The first sticky error a render of the query would hit: its own
`q.err`, else the first error among the union members in render order. -/
def findErr : SelectQuery → Option Str
  | .mk e _ _ _ _ _ _ _ _ _ _ _ _ _ _ u =>
    match e with
    | some er => some er
    | none => findErrU u

def findErrU : Unions → Option Str
  | .nil => none
  | .cons _ uq rest =>
    match findErr uq with
    | some er => some er
    | none => findErrU rest
end

/-- `SelectQuery.appendQuery`: a stored (or union-member) sticky error is
returned without producing SQL; otherwise the rendered bytes. -/
def SelectQuery.appendQueryE (q : SelectQuery) (f : Fmter) (count : Bool) : Except Str Str :=
  match findErr q with
  | some e => .error e
  | none => .ok (renderBody q f count)

/-- `SelectQuery.AppendQuery` (the public renderer): `count = false`. -/
def SelectQuery.AppendQuery (q : SelectQuery) (f : Fmter) : Except Str Str :=
  q.appendQueryE f false

/-! ## The dynamic-row model (`mapSliceModel`, `model_map_slice.go`) -/

/-- `mapSliceModel`: a sequence of dynamic key→value rows (each row a Go
map, snapshotted as an association list of key and dialect-quoted value
text) plus the memoized fixed key list. -/
structure MapSliceModel where
  slice : List (List (Str × Str))
  keys : Option (List Str)
deriving DecidableEq

/-- `mapSliceModel.initKeys`: reuse memoized keys; an empty source slice is
the `"bun: map slice is empty"` error; otherwise the first row's keys,
sorted. -/
def MapSliceModel.initKeysE (m : MapSliceModel) : Except Str (List Str) :=
  match m.keys with
  | some ks => .ok ks
  | none =>
    match m.slice with
    | [] => .error "bun: map slice is empty".toList
    | first :: _ => .ok (sortKeys (first.map Prod.fst))

/-- `mapSliceModel.appendColumns`: the fixed keys as identifiers. -/
def MapSliceModel.appendColumnsM (m : MapSliceModel) (_f : Fmter) : Except Str Str :=
  m.initKeysE.map fun ks => commaSep (ks.map appendIdent)

/-- One dynamic row's value list in fixed key order; a key the row does not
bind renders as the Go `nil` value, `NULL`. -/
def mapRowVals (ks : List Str) (row : List (Str × Str)) : Str :=
  commaSep (ks.map (fun k => (lookupKey k row).getD "NULL".toList))

/-- `mapSliceModel.appendValues`: `VALUES` plus an opening `(` (or dialect
`ROW(`); under the Nop formatter one `?` per key and an early return (the
source returns before the closing parenthesis is appended); otherwise each
row's values in fixed key order, rows separated by `"), ("` (or
`"), ROW("`), and a closing `)`. -/
def MapSliceModel.appendValuesM (m : MapSliceModel) (f : Fmter) (valuesRow : Bool) :
    Except Str Str :=
  m.initKeysE.map fun ks =>
    "VALUES ".toList ++ (if valuesRow then "ROW(".toList else ['(']) ++
      (if f.isNop then
        commaSep (ks.map (fun _ => ['?']))
      else
        sepJoin (if valuesRow then "), ROW(".toList else "), (".toList)
            (m.slice.map (mapRowVals ks)) ++
          [')'])

/-! ## The bulk value encoder (`ValuesQuery`) -/

/-- `errModelNil` (declared outside the given sources; the Go constant is
the `Model(nil)` configuration error). -/
def errModelNil : Str := "bun: Model(nil)".toList

/-- The model bound to a `ValuesQuery`: a struct table model (one row of
dialect-quoted field values, positionally aligned with the field list), a
slice table model (several such rows), or the dynamic map-slice model. -/
inductive VModel where
  | tableStruct (row : List Str)
  | tableSlice (rows : List (List Str))
  | mapSlice (m : MapSliceModel)
deriving DecidableEq

/-- `ValuesQuery`: sticky error, bound model, the schema field list the
external `getFields` returns for the table models, the custom value nodes
of `customValueQuery`, the `WithOrder` flag, and the dialect's
`feature.ValuesRow` capability. -/
structure ValuesQuery where
  err : Option Str
  model : Option VModel
  fields : List Field
  modelValues : List (Str × QueryWithArgs)
  withOrder : Bool
  valuesRow : Bool
deriving DecidableEq

/-- Lookup of a custom value node by field name (`q.modelValues[f.Name]`). -/
def lookupNode (k : Str) : List (Str × QueryWithArgs) → Option QueryWithArgs
  | [] => none
  | (k', v) :: rest => if k' = k then some v else lookupNode k rest

/-- `ValuesQuery.appendValues` on one row: per field — a custom value node
renders itself and skips the cast; otherwise a `?` under the Nop formatter
or the field's value literal, and then (unconditionally in the source) the
`::` cast separator followed by the field's declared user SQL type. -/
def vqRowVals (f : Fmter) (mv : List (Str × QueryWithArgs)) :
    List (Field × Str) → List Str
  | [] => []
  | (fl, v) :: rest =>
    (match lookupNode fl.name mv with
     | some app => app.render f
     | none =>
       (if f.isNop then ['?'] else v) ++ "::".toList ++ fl.userSQLType) ::
      vqRowVals f mv rest

/-- One row of `ValuesQuery.appendValues`, comma separated. -/
def vqRow (f : Fmter) (mv : List (Str × QueryWithArgs)) (fields : List Field)
    (row : List Str) : Str :=
  commaSep (vqRowVals f mv (fields.zip row))

/-- `ValuesQuery.AppendColumns`: sticky error and nil model first; a table
model renders the field list (plus `", _order"` under `WithOrder`); the
map-slice model renders its fixed keys. -/
def ValuesQuery.AppendColumnsM (q : ValuesQuery) (f : Fmter) : Except Str Str :=
  match q.err with
  | some e => .error e
  | none =>
    match q.model with
    | none => .error errModelNil
    | some (.tableStruct _) =>
      .ok (appendColumnsHelper [] q.fields ++ (if q.withOrder then ", _order".toList else []))
    | some (.tableSlice _) =>
      .ok (appendColumnsHelper [] q.fields ++ (if q.withOrder then ", _order".toList else []))
    | some (.mapSlice m) => m.appendColumnsM f

/-- `baseQuery.setErr` (modelled from the spec §3: the sticky error is
stored on first occurrence only). -/
def setErrF (e : Option Str) (er : Str) : Option Str :=
  match e with
  | none => some er
  | some old => some old

/-- `ValuesQuery.AppendArg`: named-placeholder expansion.  `"Columns"`
appends the column list to the buffer; an expansion failure is stored into
the query's sticky error (mutating the query) and the buffer is returned
unchanged; any other name is not handled. -/
def ValuesQuery.AppendArgM (q : ValuesQuery) (f : Fmter) (b : Str) (name : Str) :
    ValuesQuery × Str × Bool :=
  if name = "Columns".toList then
    match q.AppendColumnsM f with
    | .error e => ({ q with err := setErrF q.err e }, b, true)
    | .ok bb => (q, b ++ bb, true)
  else (q, b, false)

/-- `ValuesQuery.appendQuery` for the table models: `VALUES ` and an
opening `(` (or dialect `ROW(`), the rows — a struct model renders one row
(plus `", 0"` under `WithOrder`), a slice model renders each row separated
by `"), ("` (plus `", i"` per row under `WithOrder`) — and a closing `)`. -/
def vqTableValues (q : ValuesQuery) (f : Fmter) (rows : List (List Str))
    (withIdx : Bool) : Str :=
  "VALUES ".toList ++ (if q.valuesRow then "ROW(".toList else ['(']) ++
    sepJoin "), (".toList
      ((rows.enum.map (fun rv =>
        vqRow f q.modelValues q.fields rv.2 ++
          (if q.withOrder then ", ".toList ++ (if withIdx then intDigits rv.1 else intDigits 0) else [])))) ++
    [')']

/-- `ValuesQuery.AppendQuery`: sticky error and nil model first, then the
bound model's value rendering. -/
def ValuesQuery.AppendQueryM (q : ValuesQuery) (f : Fmter) : Except Str Str :=
  match q.err with
  | some e => .error e
  | none =>
    match q.model with
    | none => .error errModelNil
    | some (.tableStruct row) => .ok (vqTableValues q f [row] false)
    | some (.tableSlice rows) => .ok (vqTableValues q f rows true)
    | some (.mapSlice m) => m.appendValuesM f q.valuesRow

/-! ## `ScanAndCount` (`query_select.go`) -/

/-- The guard of the scan goroutine: `if q.limit >= 0`. -/
def scanBranchRuns (limit : Int) : Bool := 0 ≤ limit

/-- The mutex-guarded first-error slot update of `ScanAndCount`: an
operation that failed records its error only when no error is stored yet. -/
def recordErr (slot : Option Str) (e : Option Str) : Option Str :=
  match e with
  | none => slot
  | some er =>
    match slot with
    | none => some er
    | some old => some old

/-- `SelectQuery.ScanAndCount`: both operations run to completion (the wait
group joins on both); the scan goroutine is started only when the limit is
non-negative; each failing operation records into the shared first-error
slot in real-time order, modelled by the explicit interleaving flag
`scanRecordsFirst`; the count variable holds whatever `Count` returned
(its value on success, `0` on failure) and is returned alongside the
first error. -/
def SelectQuery.scanAndCount (q : SelectQuery) (scanErr : Option Str)
    (countRes : Except Str Int) (scanRecordsFirst : Bool) : Int × Option Str :=
  let count : Int := match countRes with | .ok n => n | .error _ => 0
  let countErr : Option Str := match countRes with | .ok _ => none | .error e => some e
  let events :=
    if scanBranchRuns q.limit then
      if scanRecordsFirst then [scanErr, countErr] else [countErr, scanErr]
    else [countErr]
  (count, events.foldl recordErr none)

/-- The error component of a `Count` outcome. -/
def countErrOf (cr : Except Str Int) : Option Str :=
  match cr with
  | .ok _ => none
  | .error e => some e

/-! ## Well-formedness of built queries

The placeholder/literal agreement claim implicitly assumes a well-formed
build: every argument-bearing template binds exactly as many arguments as
it has `?` marks, identifiers contain no `?` and no trailing space, and
quoted literals are nonempty and have no trailing space (a dialect-quoted
literal always ends in a quote, digit or bracket). -/

/-- A well-bound node: the argument count matches the template's `?` marks
(`nil`-args nodes are rendered verbatim and must carry no `?`). -/
def wfNodeW (n : QueryWithArgs) : Bool :=
  match n.args with
  | none => phCount n.query == 0
  | some vs => phCount n.query == vs.length

/-- A plausible dialect-quoted literal: nonempty, no trailing space. -/
def wfVal (v : Str) : Bool := !v.isEmpty && !(v.getLast? == some ' ')

/-- A well-formed node in a column/table position, where the renderer's
buffer-marker logic additionally needs nonempty renders without trailing
space: well bound, nonempty template without trailing space, plausible
literals. -/
def wfNodeS (n : QueryWithArgs) : Bool :=
  wfNodeW n && !n.query.isEmpty && !(n.query.getLast? == some ' ') &&
    (match n.args with
     | none => true
     | some vs => vs.all wfVal)

/-- A plausible identifier: nonempty, no `?`, no trailing space. -/
def wfIdent (s : Str) : Bool :=
  !s.isEmpty && (phCount s == 0) && !(s.getLast? == some ' ')

/-- Well-formed schema table metadata. -/
def wfTable (t : Table) : Bool :=
  wfIdent t.alias_ && wfIdent t.sqlNameForSelects &&
    t.fields.all (fun fl => wfIdent fl.name && wfIdent fl.sqlName)

mutual
/-- Well-formed relation join descriptors: scoped column nodes are strong
nodes, the scoped column list and the related field list are not both
empty, identifiers are plausible, the ON condition is well bound. -/
def wfJoin : Join → Bool
  | .mk _ _ tbl al cols cond ch =>
    cols.all wfNodeS && (!cols.isEmpty || !tbl.fields.isEmpty) &&
      wfIdent al && wfTable tbl && wfNodeW cond && wfJoins ch

def wfJoins : Joins → Bool
  | .nil => true
  | .cons j rest => wfJoin j && wfJoins rest
end

/-- A well-formed manual join clause. -/
def wfJoinQ (jq : JoinQuery) : Bool :=
  wfNodeW jq.join && jq.onList.all (fun o => wfNodeW o.node && (phCount o.sep == 0))

/-- The table check of `wfQ`: a bound table is well formed and, unless
explicit columns are present, small enough to avoid the Nop abbreviation. -/
def wfTableOpt (c : List QueryWithArgs) : Option Table → Bool
  | none => true
  | some tbl => wfTable tbl && (!c.isEmpty || tbl.fields.length ≤ 10)

/-- The join-descriptor check of `wfQ`. -/
def wfJoinsOpt : Option TableModel → Bool
  | none => true
  | some m => wfJoins m.joins

/-- An optional strong node. -/
def wfNodeSOpt : Option QueryWithArgs → Bool
  | none => true
  | some n => wfNodeS n

/-- An optional well-bound node. -/
def wfNodeWOpt : Option QueryWithArgs → Bool
  | none => true
  | some n => wfNodeW n

mutual
/-- A well-formed built query: all nodes well bound (strong in column and
table positions), identifiers plausible, separators and union keywords
`?`-free, and — forced by the `'N columns'` Nop abbreviation — either
explicit columns or a bound table of at most 10 fields; recursively for
union members. -/
def wfQ : SelectQuery → Bool
  | .mk _ d c t tm mt ts js w g h o _ _ s u =>
    (d.getD []).all wfNodeW &&
    c.all wfNodeS &&
    wfTableOpt c t &&
    wfJoinsOpt tm &&
    wfNodeSOpt mt &&
    ts.all wfNodeS &&
    js.all wfJoinQ &&
    w.all (fun o => wfNodeW o.node && (phCount o.sep == 0)) &&
    g.all wfNodeW && h.all wfNodeW && o.all wfNodeW &&
    wfNodeWOpt s &&
    wfU u

def wfU : Unions → Bool
  | .nil => true
  | .cons ex uq rest => (phCount ex == 0) && wfQ uq && wfU rest
end

/-! ## Argument stream of a render

`argsOf` lists the dialect-quoted literals a literal-mode render of the
query interpolates, in render order. -/

/-- The column-area arguments contributed by one has-one join. -/
def joinColsArgs (j : Join) : List Str :=
  (j.columns.map QueryWithArgs.argList).flatten

/-- The arguments of one manual join clause. -/
def joinQArgs (jq : JoinQuery) : List Str :=
  jq.join.argList ++ (jq.onList.map (fun o => o.node.argList)).flatten

/-- The arguments of a separated predicate list. -/
def sepListArgs (l : List QueryWithSep) : List Str :=
  (l.map (fun o => o.node.argList)).flatten

mutual
/-- The argument stream of a (non-count) render, in render order:
distinct-on, columns (base, then each has-one join's scoped columns),
model table and tables, has-one join ON conditions, manual joins, where,
group, having, order, locking clause, then each union member. -/
def argsOf : SelectQuery → List Str
  | .mk _ d c _ tm mt ts js w g h o _ _ s u =>
    ((d.getD []).map QueryWithArgs.argList).flatten ++
    ((c.map QueryWithArgs.argList).flatten ++
      ((modelHasOneJoins tm).map joinColsArgs).flatten) ++
    ((mt.map QueryWithArgs.argList).getD [] ++ (ts.map QueryWithArgs.argList).flatten) ++
    ((modelHasOneJoins tm).map (fun j => j.onCond.argList)).flatten ++
    (js.map joinQArgs).flatten ++
    sepListArgs w ++
    (g.map QueryWithArgs.argList).flatten ++
    (h.map QueryWithArgs.argList).flatten ++
    (o.map QueryWithArgs.argList).flatten ++
    (s.map QueryWithArgs.argList).getD [] ++
    argsU u

def argsU : Unions → List Str
  | .nil => []
  | .cons _ uq rest => argsOf uq ++ argsU rest
end

/-! ## Placeholder/literal toolkit -/

theorem subst_nil_args (t : Str) : subst t [] = t := by
  induction t with
  | nil => rfl
  | cons c t ih =>
    by_cases h : c = '?'
    · simp [subst, h, ih]
    · simp [subst, h, ih]

theorem phCount_nil : phCount [] = 0 := rfl

theorem phCount_append (a b : Str) : phCount (a ++ b) = phCount a + phCount b :=
  List.count_append _ _ _

theorem phCount_cons_ph (t : Str) : phCount ('?' :: t) = phCount t + 1 := by
  simp [phCount, List.count_cons]

theorem phCount_cons_other (c : Char) (t : Str) (h : c ≠ '?') :
    phCount (c :: t) = phCount t := by
  simp [phCount, List.count_cons, h]

theorem subst_cons_ph (t : Str) (v : Str) (vs : List Str) :
    subst ('?' :: t) (v :: vs) = v ++ subst t vs := by
  simp [subst]

theorem subst_cons_ph_nil (t : Str) : subst ('?' :: t) [] = '?' :: subst t [] := by
  simp [subst]

theorem subst_cons_other (c : Char) (t : Str) (vs : List Str) (h : c ≠ '?') :
    subst (c :: t) vs = c :: subst t vs := by
  simp [subst, h]

theorem subst_append (a b : Str) (vs ws : List Str) (h : phCount a = vs.length) :
    subst (a ++ b) (vs ++ ws) = subst a vs ++ subst b ws := by
  induction a generalizing vs with
  | nil =>
    have hv : vs = [] := by
      cases vs with
      | nil => rfl
      | cons v vs' => simp [phCount] at h
    subst hv
    simp [subst]
  | cons c a ih =>
    by_cases hc : c = '?'
    · subst hc
      rw [phCount_cons_ph] at h
      cases vs with
      | nil => simp at h
      | cons v vs' =>
        simp only [List.length_cons, Nat.add_right_cancel_iff] at h
        rw [List.cons_append, List.cons_append, subst_cons_ph, subst_cons_ph,
          ih vs' h, List.append_assoc]
    · rw [phCount_cons_other c a hc] at h
      rw [List.cons_append, subst_cons_other _ _ _ hc, subst_cons_other _ _ _ hc,
        ih vs h, List.cons_append]

theorem subst_ne_nil (t : Str) (vs : List Str) (hv : ∀ v ∈ vs, v ≠ [])
    (ht : t ≠ []) : subst t vs ≠ [] := by
  cases t with
  | nil => cases ht rfl
  | cons c t =>
    by_cases hc : c = '?'
    · subst hc
      cases vs with
      | nil =>
        rw [subst_cons_ph_nil]
        simp
      | cons v vs' =>
        rw [subst_cons_ph]
        intro hh
        exact hv v (by simp) (List.append_eq_nil.mp hh).1
    · rw [subst_cons_other _ _ _ hc]
      simp

theorem subst_getLast (t : Str) (vs : List Str) (hv : ∀ v ∈ vs, v ≠ [])
    (ht : t ≠ []) :
    (subst t vs).getLast? = t.getLast? ∨
      ∃ v ∈ vs, (subst t vs).getLast? = v.getLast? := by
  induction t generalizing vs with
  | nil => cases ht rfl
  | cons c t ih =>
    by_cases hc : c = '?'
    · subst hc
      cases vs with
      | nil =>
        rw [subst_cons_ph_nil, subst_nil_args]
        exact Or.inl rfl
      | cons v vs' =>
        rw [subst_cons_ph]
        by_cases htn : t = []
        · subst htn
          right
          refine ⟨v, by simp, ?_⟩
          simp [subst]
        · have hne : subst t vs' ≠ [] :=
            subst_ne_nil _ _ (fun u hu => hv u (by simp [hu])) htn
          rw [List.getLast?_append_of_ne_nil _ hne]
          have hlast : ('?' :: t).getLast? = t.getLast? := by
            have h1 : ('?' :: t) = ['?'] ++ t := rfl
            rw [h1, List.getLast?_append_of_ne_nil _ htn]
          rcases ih vs' (fun u hu => hv u (by simp [hu])) htn with h1 | ⟨v2, hv2, h2⟩
          · exact Or.inl (by rw [h1, hlast])
          · exact Or.inr ⟨v2, by simp [hv2], h2⟩
    · by_cases htn : t = []
      · subst htn
        rw [subst_cons_other _ _ _ hc]
        exact Or.inl (by simp [subst])
      · rw [subst_cons_other _ _ _ hc]
        have hne : subst t vs ≠ [] := subst_ne_nil _ _ hv htn
        have hl : (c :: subst t vs).getLast? = (subst t vs).getLast? := by
          have h1 : (c :: subst t vs) = [c] ++ subst t vs := rfl
          rw [h1, List.getLast?_append_of_ne_nil _ hne]
        have hlast : (c :: t).getLast? = t.getLast? := by
          have h1 : (c :: t) = [c] ++ t := rfl
          rw [h1, List.getLast?_append_of_ne_nil _ htn]
        rcases ih vs hv htn with h1 | ⟨v2, hv2, h2⟩
        · exact Or.inl (by rw [hl, h1, hlast])
        · exact Or.inr ⟨v2, hv2, by rw [hl, h2]⟩

/-- The structural agreement between a placeholder-mode text `a` and a
literal-mode text `b` with argument stream `vs`: `a` has exactly one `?`
per argument, and `b` is `a` with the arguments substituted at those
positions. -/
def SubstRel (a b : Str) (vs : List Str) : Prop :=
  phCount a = vs.length ∧ b = subst a vs

theorem SubstRel.append {a b c d : Str} {vs ws : List Str}
    (h1 : SubstRel a b vs) (h2 : SubstRel c d ws) :
    SubstRel (a ++ c) (b ++ d) (vs ++ ws) := by
  refine ⟨?_, ?_⟩
  · rw [phCount_append, h1.1, h2.1, List.length_append]
  · rw [subst_append a c vs ws h1.1, ← h1.2, ← h2.2]

theorem SubstRel.const (c : Str) (h : phCount c = 0) : SubstRel c c [] :=
  ⟨h, (subst_nil_args c).symm⟩

theorem SubstRel.refl_nil : SubstRel [] [] [] := SubstRel.const [] rfl

theorem SubstRel.node (n : QueryWithArgs) (h : wfNodeW n = true) :
    SubstRel (n.render .nop) (n.render .literal) n.argList := by
  cases n with
  | mk q args =>
    cases args with
    | none =>
      simp only [wfNodeW, beq_iff_eq] at h
      exact SubstRel.const q h
    | some vs =>
      simp only [wfNodeW, beq_iff_eq] at h
      exact ⟨h, rfl⟩

theorem SubstRel.flatList {α : Type} (xs : List α) (rn rl : α → Str)
    (ra : α → List Str) (h : ∀ x ∈ xs, SubstRel (rn x) (rl x) (ra x)) :
    SubstRel ((xs.map rn).flatten) ((xs.map rl).flatten) ((xs.map ra).flatten) := by
  induction xs with
  | nil => exact SubstRel.refl_nil
  | cons x xs ih =>
    simp only [List.map_cons, List.flatten_cons]
    exact SubstRel.append (h x (by simp)) (ih (fun y hy => h y (by simp [hy])))

theorem SubstRel.sepJoinList {α : Type} (sep : Str) (hsep : phCount sep = 0)
    (xs : List α) (rn rl : α → Str) (ra : α → List Str)
    (h : ∀ x ∈ xs, SubstRel (rn x) (rl x) (ra x)) :
    SubstRel (sepJoin sep (xs.map rn)) (sepJoin sep (xs.map rl)) ((xs.map ra).flatten) := by
  induction xs with
  | nil => exact SubstRel.refl_nil
  | cons x xs ih =>
    cases xs with
    | nil =>
      simp only [List.map_cons, List.map_nil, sepJoin, List.flatten_cons,
        List.flatten_nil, List.append_nil]
      exact h x (by simp)
    | cons y r =>
      simp only [List.map_cons, sepJoin, List.flatten_cons]
      have step : SubstRel (rn x ++ sep) (rl x ++ sep) (ra x ++ []) :=
        SubstRel.append (h x (by simp)) (SubstRel.const sep hsep)
      have tail := ih (fun z hz => h z (by simp at hz; rcases hz with hz | hz <;> simp [hz]))
      simp only [List.map_cons, List.flatten_cons] at tail
      have := SubstRel.append step tail
      simpa using this

/-! ## Trailing-character toolkit (for the `", "` trim) -/

/-- A text that does not end in a space (in particular it has no `", "`
suffix, so the column-list trim is a no-op on it). -/
def endsOkay (t : Str) : Prop := t.getLast? ≠ some ' '

instance (t : Str) : Decidable (endsOkay t) := by
  unfold endsOkay
  infer_instance

theorem endsOkay_nil : endsOkay [] := by simp [endsOkay]

theorem endsOkay_append {s : Str} (b : Str) (h : endsOkay s) (hs : s ≠ []) :
    endsOkay (b ++ s) := by
  unfold endsOkay at h ⊢
  rw [List.getLast?_append_of_ne_nil _ hs]
  exact h

theorem endsOkay_extend (b s : Str) (h : endsOkay s) (hs : s ≠ []) :
    endsOkay (b ++ s) ∧ (b ++ s) ≠ [] :=
  ⟨endsOkay_append b h hs, fun hh => hs (List.append_eq_nil.mp hh).2⟩

theorem phCount_eq_zero_iff (t : Str) : phCount t = 0 ↔ '?' ∉ t :=
  List.count_eq_zero

theorem sepJoin_endsOkay (sep : Str) (xs : List Str)
    (h : ∀ x ∈ xs, x ≠ [] ∧ endsOkay x) (hne : xs ≠ []) :
    sepJoin sep xs ≠ [] ∧ endsOkay (sepJoin sep xs) := by
  induction xs with
  | nil => cases hne rfl
  | cons x xs ih =>
    cases xs with
    | nil =>
      simpa [sepJoin] using h x (by simp)
    | cons y r =>
      have tail := ih (fun z hz => h z (by simp at hz; rcases hz with hz | hz <;> simp [hz]))
        (by simp)
      simp only [sepJoin]
      constructor
      · simp [tail.1]
      · rw [List.append_assoc]
        exact endsOkay_append _ (endsOkay_append _ tail.2 tail.1) (by simp [tail.1])

theorem not_suffix_comma_of_endsOkay (t : Str) (h : endsOkay t) :
    ¬ (", ".toList.isSuffixOf t = true) := by
  intro hsuf
  rw [List.isSuffixOf_iff_suffix] at hsuf
  rcases hsuf with ⟨u, hu⟩
  apply h
  rw [← hu]
  have : u ++ ", ".toList = (u ++ [',']) ++ [' '] := by simp
  rw [this, List.getLast?_append_of_ne_nil _ (by simp)]
  rfl

theorem trimSuffix_noop (t : Str) (h : endsOkay t) :
    trimSuffix t ", ".toList = t := by
  unfold trimSuffix
  rw [if_neg (not_suffix_comma_of_endsOkay t h)]

theorem trimSuffix_of_append (x : Str) :
    trimSuffix (x ++ ", ".toList) ", ".toList = x := by
  unfold trimSuffix
  rw [if_pos]
  · have : (x ++ ", ".toList).length - (", ".toList).length = x.length := by
      simp
    rw [this, List.take_left]
  · rw [List.isSuffixOf_iff_suffix]
    exact ⟨x, rfl⟩

/-! ## The marker folds in accumulated form -/

theorem decide_length_marker (b s : Str) :
    decide ((b ++ s).length ≠ b.length) = decide (s ≠ []) := by
  rw [decide_eq_decide]
  constructor
  · intro h hs
    apply h
    rw [hs]
    simp
  · intro h hl
    apply h
    have h2 : b.length + s.length = b.length := by
      simpa [List.length_append] using hl
    have h3 : s.length = 0 := by omega
    exact List.length_eq_zero.mp h3

theorem decide_length_ne_zero (b : Str) :
    decide (b.length ≠ 0) = decide (b ≠ []) := by
  rw [decide_eq_decide]
  simp [List.length_eq_zero]

/-- The `appendColumns` join loop in accumulated form: `pend` records
whether bytes were appended since the marker; a pending separator is
emitted before a join's columns, and the next marker state is whether that
join's columns were nonempty. -/
def colsGlue (f : Fmter) : List Join → Bool → Str
  | [], _ => []
  | j :: js, pend =>
    (if pend then ", ".toList else []) ++ hasOneColumnsB f j ++
      colsGlue f js (decide (hasOneColumnsB f j ≠ []))

theorem colsFold_glue (f : Fmter) (js : List Join) (b : Str) (start : Nat) :
    colsFold f js b start = b ++ colsGlue f js (decide (b.length ≠ start)) := by
  induction js generalizing b start with
  | nil => simp [colsFold, colsGlue]
  | cons j js ih =>
    by_cases h : b.length ≠ start
    · have hd : decide (b.length ≠ start) = true := decide_eq_true h
      rw [colsFold, if_pos h, ih, decide_length_marker, colsGlue, hd]
      simp [List.append_assoc]
    · have heq : b.length = start := not_ne_iff.mp h
      rw [colsFold, if_neg h, ih, ← heq, decide_length_marker, colsGlue]
      simp [List.append_assoc]

theorem appendColumnsB_glue (c : List QueryWithArgs) (t : Option Table)
    (tm : Option TableModel) (f : Fmter) :
    appendColumnsB c t tm f =
      trimSuffix (baseCols c t f ++
        colsGlue f (modelHasOneJoins tm) (decide (baseCols c t f ≠ []))) ", ".toList := by
  unfold appendColumnsB
  rw [colsFold_glue]
  have : decide ((baseCols c t f).length ≠ 0) = decide (baseCols c t f ≠ []) :=
    decide_length_ne_zero _
  rw [this]

/-- The `appendTables` comma loop in accumulated form: once the buffer is
nonempty every further table is preceded by `", "`. -/
def tablesGlue (f : Fmter) : List QueryWithArgs → Bool → Str
  | [], _ => []
  | n :: ns, pend =>
    (if pend then ", ".toList else []) ++ n.render f ++
      tablesGlue f ns (pend || decide (n.render f ≠ []))

theorem tablesFold_glue (f : Fmter) (ns : List QueryWithArgs) (b : Str) :
    tablesFold f ns b = b ++ tablesGlue f ns (decide (b ≠ [])) := by
  induction ns generalizing b with
  | nil => simp [tablesFold, tablesGlue]
  | cons n ns ih =>
    by_cases h : b = []
    · subst h
      have hd : decide (([] : Str) ≠ []) = false := by decide
      rw [tablesFold, if_neg (by simp), ih, tablesGlue, hd]
      simp
    · have hlen : 0 < b.length := List.length_pos.mpr h
      have hd : decide (b ≠ []) = true := decide_eq_true h
      rw [tablesFold, if_pos hlen, ih, tablesGlue, hd]
      have hne : b ++ ", ".toList ++ n.render f ≠ [] := by simp
      rw [decide_eq_true hne]
      simp [List.append_assoc]

/-! ## Node- and segment-level properties under well-formedness -/

theorem SubstRel.constLeft (c : Str) (h : phCount c = 0) {a b : Str}
    {vs : List Str} (hr : SubstRel a b vs) : SubstRel (c ++ a) (c ++ b) vs := by
  have := (SubstRel.const c h).append hr
  simpa using this

theorem SubstRel.constRight (c : Str) (h : phCount c = 0) {a b : Str}
    {vs : List Str} (hr : SubstRel a b vs) : SubstRel (a ++ c) (b ++ c) vs := by
  have := hr.append (SubstRel.const c h)
  simpa using this

theorem wfVal_parts (v : Str) (h : wfVal v = true) : v ≠ [] ∧ endsOkay v := by
  unfold wfVal at h
  rw [Bool.and_eq_true] at h
  constructor
  · simpa using h.1
  · have := h.2
    simp only [Bool.not_eq_true', beq_eq_false_iff_ne, ne_eq] at this
    exact this

theorem wfNodeS_parts (n : QueryWithArgs) (h : wfNodeS n = true) :
    wfNodeW n = true ∧ n.query ≠ [] ∧ endsOkay n.query ∧
      ∀ v ∈ n.argList, v ≠ [] ∧ endsOkay v := by
  unfold wfNodeS at h
  rw [Bool.and_eq_true, Bool.and_eq_true, Bool.and_eq_true] at h
  refine ⟨h.1.1.1, by simpa using h.1.1.2, ?_, ?_⟩
  · have := h.1.2
    simp only [Bool.not_eq_true', beq_eq_false_iff_ne, ne_eq] at this
    exact this
  · intro v hv
    cases hn : n.args with
    | none =>
      rw [QueryWithArgs.argList, hn] at hv
      simp at hv
    | some vs =>
      have hall := h.2
      rw [hn] at hall
      rw [QueryWithArgs.argList, hn] at hv
      exact wfVal_parts v (List.all_eq_true.mp hall v hv)

theorem wfIdent_parts (s : Str) (h : wfIdent s = true) :
    s ≠ [] ∧ phCount s = 0 ∧ endsOkay s := by
  unfold wfIdent at h
  rw [Bool.and_eq_true, Bool.and_eq_true] at h
  refine ⟨by simpa using h.1.1, by simpa using h.1.2, ?_⟩
  have := h.2
  simp only [Bool.not_eq_true', beq_eq_false_iff_ne, ne_eq] at this
  exact this

/-- A node in a strong position renders nonempty without trailing space in
either formatter mode. -/
theorem node_render_props (n : QueryWithArgs) (f : Fmter) (h : wfNodeS n = true) :
    n.render f ≠ [] ∧ endsOkay (n.render f) := by
  obtain ⟨hw, hq, he, hv⟩ := wfNodeS_parts n h
  cases n with
  | mk q args =>
    cases args with
    | none => exact ⟨hq, he⟩
    | some vs =>
      cases f with
      | nop => exact ⟨hq, he⟩
      | literal =>
        have hv' : ∀ v ∈ vs, v ≠ [] := by
          intro v hvv
          exact (hv v (by simpa [QueryWithArgs.argList] using hvv)).1
        refine ⟨subst_ne_nil q vs hv' hq, ?_⟩
        rcases subst_getLast q vs hv' hq with h1 | ⟨v, hvv, h2⟩
        · show (subst q vs).getLast? ≠ some ' '
          rw [h1]
          exact he
        · show (subst q vs).getLast? ≠ some ' '
          rw [h2]
          exact (hv v (by simpa [QueryWithArgs.argList] using hvv)).2

/-- `appendColumnsHelper` renders a `?`-free text, empty exactly when the
field list is empty, and without trailing space. -/
theorem appendColumnsHelper_props (al : Str) (fields : List Field)
    (hal : al = [] ∨ wfIdent al = true)
    (hf : ∀ fl ∈ fields, wfIdent fl.sqlName = true) :
    phCount (appendColumnsHelper al fields) = 0 ∧
      (appendColumnsHelper al fields = [] ↔ fields = []) ∧
      endsOkay (appendColumnsHelper al fields) := by
  have piece : ∀ fl ∈ fields,
      phCount ((if al.isEmpty then [] else al ++ ['.']) ++ fl.sqlName) = 0 ∧
      ((if al.isEmpty then [] else al ++ ['.']) ++ fl.sqlName) ≠ [] ∧
      endsOkay ((if al.isEmpty then [] else al ++ ['.']) ++ fl.sqlName) := by
    intro fl hfl
    obtain ⟨hn1, hn2, hn3⟩ := wfIdent_parts _ (hf fl hfl)
    refine ⟨?_, ?_, ?_⟩
    · rw [phCount_append, hn2, Nat.add_zero]
      rcases hal with hal | hal
      · simp [hal, phCount]
      · obtain ⟨_, ha2, _⟩ := wfIdent_parts _ hal
        by_cases hae : al.isEmpty
        · simp [hae, phCount]
        · rw [if_neg hae, phCount_append, ha2]
          simp [phCount]
    · simp [hn1]
    · exact endsOkay_append _ hn3 hn1
  cases hfe : fields with
  | nil =>
    refine ⟨rfl, by simp [appendColumnsHelper, commaSep, sepJoin], by simp [appendColumnsHelper, commaSep, sepJoin, endsOkay_nil]⟩
  | cons fl fls =>
    have hjoin := sepJoin_endsOkay ", ".toList
      ((fl :: fls).map (fun fl => (if al.isEmpty then [] else al ++ ['.']) ++ fl.sqlName))
      (by
        intro x hx
        rw [List.mem_map] at hx
        obtain ⟨fl2, hfl2, hx2⟩ := hx
        have := piece fl2 (by rw [hfe]; exact hfl2)
        exact ⟨hx2 ▸ this.2.1, hx2 ▸ this.2.2⟩)
      (by simp)
    have hsub : SubstRel (appendColumnsHelper al (fl :: fls))
        (appendColumnsHelper al (fl :: fls)) (((fl :: fls).map (fun _ => ([] : List Str))).flatten) := by
      unfold appendColumnsHelper
      exact SubstRel.sepJoinList ", ".toList (by decide) (fl :: fls) _ _ _
        (fun x hx => SubstRel.const _ (piece x (by rw [hfe]; exact hx)).1)
    refine ⟨?_, ?_, ?_⟩
    · have := hsub.1
      simpa using this
    · constructor
      · intro hh
        exact absurd hh (by unfold appendColumnsHelper commaSep at *; exact hjoin.1)
      · intro hh
        simp at hh
    · unfold appendColumnsHelper commaSep
      exact hjoin.2

theorem wfTable_parts (t : Table) (h : wfTable t = true) :
    wfIdent t.alias_ = true ∧ wfIdent t.sqlNameForSelects = true ∧
      ∀ fl ∈ t.fields, wfIdent fl.name = true ∧ wfIdent fl.sqlName = true := by
  unfold wfTable at h
  rw [Bool.and_eq_true, Bool.and_eq_true] at h
  refine ⟨h.1.1, h.1.2, ?_⟩
  intro fl hfl
  have := List.all_eq_true.mp h.2 fl hfl
  rw [Bool.and_eq_true] at this
  exact this

theorem wfJoin_parts (j : Join) (h : wfJoin j = true) :
    (∀ n ∈ j.columns, wfNodeS n = true) ∧
      (j.columns ≠ [] ∨ j.table.fields ≠ []) ∧
      wfIdent j.alias_ = true ∧ wfTable j.table = true ∧
      wfNodeW j.onCond = true ∧ wfJoins j.children = true := by
  cases j with
  | mk nm rt tbl al cols cond ch =>
    unfold wfJoin at h
    rw [Bool.and_eq_true, Bool.and_eq_true, Bool.and_eq_true, Bool.and_eq_true,
      Bool.and_eq_true] at h
    refine ⟨?_, ?_, h.1.1.1.2, h.1.1.2, h.1.2, h.2⟩
    · intro n hn
      exact List.all_eq_true.mp h.1.1.1.1.1 n hn
    · have := h.1.1.1.1.2
      rw [Bool.or_eq_true] at this
      rcases this with h1 | h1
      · exact Or.inl (by simpa using h1)
      · exact Or.inr (by simpa using h1)

mutual
theorem wfJoins_flat (js : Joins) (h : wfJoins js = true) :
    ∀ j ∈ hasOneFlat js, wfJoin j = true := by
  cases js with
  | nil =>
    intro j hj
    simp [hasOneFlat] at hj
  | cons j0 rest =>
    intro j hj
    rw [wfJoins, Bool.and_eq_true] at h
    rw [hasOneFlat] at hj
    rcases List.mem_append.mp hj with hj1 | hj2
    · cases hrt : j0.relType with
      | hasOne =>
        rw [hrt] at hj1
        rcases List.mem_cons.mp hj1 with hj3 | hj3
        · exact hj3 ▸ h.1
        · exact wfJoin_flat j0 h.1 j hj3
      | belongsTo =>
        rw [hrt] at hj1
        rcases List.mem_cons.mp hj1 with hj3 | hj3
        · exact hj3 ▸ h.1
        · exact wfJoin_flat j0 h.1 j hj3
      | hasMany =>
        rw [hrt] at hj1
        simp at hj1
      | manyToMany =>
        rw [hrt] at hj1
        simp at hj1
    · exact wfJoins_flat rest h.2 j hj2

theorem wfJoin_flat (j0 : Join) (h : wfJoin j0 = true) :
    ∀ j ∈ hasOneFlatJ j0, wfJoin j = true := by
  cases j0 with
  | mk nm rt tbl al cols cond ch =>
    intro j hj
    rw [hasOneFlatJ] at hj
    unfold wfJoin at h
    rw [Bool.and_eq_true] at h
    exact wfJoins_flat ch h.2 j hj
end

theorem hasOneFieldPiece_props (al : Str) (fl : Field)
    (hal : wfIdent al = true) (hn : wfIdent fl.name = true)
    (hs : wfIdent fl.sqlName = true) :
    phCount (appendIdent al ++ '.' :: fl.sqlName ++ " AS ".toList ++
        appendIdent (al ++ "__".toList ++ fl.name)) = 0 ∧
      (appendIdent al ++ '.' :: fl.sqlName ++ " AS ".toList ++
        appendIdent (al ++ "__".toList ++ fl.name)) ≠ [] ∧
      endsOkay (appendIdent al ++ '.' :: fl.sqlName ++ " AS ".toList ++
        appendIdent (al ++ "__".toList ++ fl.name)) := by
  obtain ⟨ha1, ha2, ha3⟩ := wfIdent_parts _ hal
  obtain ⟨hn1, hn2, hn3⟩ := wfIdent_parts _ hn
  obtain ⟨hs1, hs2, hs3⟩ := wfIdent_parts _ hs
  refine ⟨?_, ?_, ?_⟩
  · simp only [appendIdent, phCount_append]
    rw [phCount_cons_other _ _ (by decide)]
    simp [ha2, hn2, hs2, (by decide : phCount [' ', 'A', 'S', ' '] = 0),
      (by decide : phCount ['_', '_'] = 0)]
  · simp [appendIdent]
  · simp only [appendIdent]
    have eX := endsOkay_extend (al ++ "__".toList) fl.name hn3 hn1
    exact (endsOkay_extend (al ++ '.' :: fl.sqlName ++ " AS ".toList) _ eX.1 eX.2).1

/-- The column contribution of one well-formed has-one join: placeholder
and literal renders agree structurally with its scoped-column arguments,
and both renders are nonempty without trailing space. -/
theorem hasOneColumnsB_props (j : Join) (h : wfJoin j = true) :
    SubstRel (hasOneColumnsB .nop j) (hasOneColumnsB .literal j) (joinColsArgs j) ∧
      ∀ f : Fmter, hasOneColumnsB f j ≠ [] ∧ endsOkay (hasOneColumnsB f j) := by
  obtain ⟨hcols, hne, hal, htab, hcond, hch⟩ := wfJoin_parts j h
  obtain ⟨hta, hts, htf⟩ := wfTable_parts _ htab
  by_cases hce : j.columns.isEmpty
  · have hcein : j.columns = [] := by simpa using hce
    have hfe : j.table.fields ≠ [] := by
      rcases hne with h1 | h1
      · exact absurd hcein h1
      · exact h1
    have hsame : ∀ f : Fmter, hasOneColumnsB f j =
        commaSep (j.table.fields.map (fun fl =>
          appendIdent j.alias_ ++ '.' :: fl.sqlName ++ " AS ".toList ++
            appendIdent (j.alias_ ++ "__".toList ++ fl.name))) := by
      intro f
      unfold hasOneColumnsB
      rw [if_pos hce]
    have hpieces : ∀ fl ∈ j.table.fields,
        phCount (appendIdent j.alias_ ++ '.' :: fl.sqlName ++ " AS ".toList ++
          appendIdent (j.alias_ ++ "__".toList ++ fl.name)) = 0 ∧
        (appendIdent j.alias_ ++ '.' :: fl.sqlName ++ " AS ".toList ++
          appendIdent (j.alias_ ++ "__".toList ++ fl.name)) ≠ [] ∧
        endsOkay (appendIdent j.alias_ ++ '.' :: fl.sqlName ++ " AS ".toList ++
          appendIdent (j.alias_ ++ "__".toList ++ fl.name)) := by
      intro fl hfl
      exact hasOneFieldPiece_props j.alias_ fl hal (htf fl hfl).1 (htf fl hfl).2
    constructor
    · rw [hsame .nop, hsame .literal]
      have hargs : joinColsArgs j = ((j.table.fields.map (fun _ => ([] : List Str))).flatten) := by
        unfold joinColsArgs
        rw [hcein]
        simp
      rw [hargs]
      unfold commaSep
      exact SubstRel.sepJoinList ", ".toList (by decide) j.table.fields _ _ _
        (fun fl hfl => SubstRel.const _ (hpieces fl hfl).1)
    · intro f
      rw [hsame f]
      unfold commaSep
      have := sepJoin_endsOkay ", ".toList
        (j.table.fields.map (fun fl =>
          appendIdent j.alias_ ++ '.' :: fl.sqlName ++ " AS ".toList ++
            appendIdent (j.alias_ ++ "__".toList ++ fl.name)))
        (by
          intro x hx
          rw [List.mem_map] at hx
          obtain ⟨fl, hfl, hx2⟩ := hx
          exact ⟨hx2 ▸ (hpieces fl hfl).2.1, hx2 ▸ (hpieces fl hfl).2.2⟩)
        (by simp [hfe])
      exact this
  · have hcne : j.columns ≠ [] := by simpa using hce
    have hsame : ∀ f : Fmter, hasOneColumnsB f j =
        commaSep (j.columns.map (fun n => n.render f)) := by
      intro f
      unfold hasOneColumnsB
      rw [if_neg hce]
    constructor
    · rw [hsame .nop, hsame .literal]
      unfold joinColsArgs commaSep
      exact SubstRel.sepJoinList ", ".toList (by decide) j.columns _ _ _
        (fun n hn => SubstRel.node n (wfNodeS_parts n (hcols n hn)).1)
    · intro f
      rw [hsame f]
      unfold commaSep
      exact sepJoin_endsOkay ", ".toList (j.columns.map (fun n => n.render f))
        (by
          intro x hx
          rw [List.mem_map] at hx
          obtain ⟨n, hn, hx2⟩ := hx
          exact ⟨hx2 ▸ (node_render_props n f (hcols n hn)).1,
            hx2 ▸ (node_render_props n f (hcols n hn)).2⟩)
        (by simp [hcne])

/-- The accumulated join-columns glue under well-formedness: structural
agreement of the two modes, and (for a nonempty join list) nonempty
output without trailing space. -/
theorem colsGlue_props (js : List Join) (h : ∀ j ∈ js, wfJoin j = true) (pend : Bool) :
    SubstRel (colsGlue .nop js pend) (colsGlue .literal js pend)
        ((js.map joinColsArgs).flatten) ∧
      (js = [] → colsGlue .nop js pend = [] ∧ colsGlue .literal js pend = []) ∧
      (js ≠ [] → ∀ f : Fmter, colsGlue f js pend ≠ [] ∧ endsOkay (colsGlue f js pend)) := by
  induction js generalizing pend with
  | nil =>
    exact ⟨SubstRel.refl_nil, fun _ => ⟨rfl, rfl⟩, fun hne => absurd rfl hne⟩
  | cons j js ih =>
    have hj := hasOneColumnsB_props j (h j (by simp))
    have ihp := ih (fun j2 hj2 => h j2 (by simp [hj2]))
    have hcond : ∀ f : Fmter, decide (hasOneColumnsB f j ≠ []) = true :=
      fun f => decide_eq_true (hj.2 f).1
    have hglue : ∀ f : Fmter, colsGlue f (j :: js) pend =
        (if pend then ", ".toList else []) ++ hasOneColumnsB f j ++
          colsGlue f js true := by
      intro f
      rw [colsGlue, hcond f]
    refine ⟨?_, fun hc => by simp at hc, fun _ f => ?_⟩
    · rw [hglue .nop, hglue .literal]
      have step := ((SubstRel.const (if pend then ", ".toList else [])
        (by cases pend <;> decide)).append hj.1).append (ihp true).1
      simp only [List.map_cons, List.flatten_cons]
      simpa using step
    · rw [hglue f]
      cases hjs : js with
      | nil =>
        constructor
        · simp [(hj.2 f).1]
        · rw [show colsGlue f ([] : List Join) true = [] from rfl, List.append_nil]
          exact (endsOkay_extend _ _ (hj.2 f).2 (hj.2 f).1).1
      | cons j2 js2 =>
        have htail := (ihp true).2.2 (by simp [hjs]) f
        rw [hjs] at htail
        constructor
        · simp [htail.1]
        · exact (endsOkay_extend _ _ htail.2 htail.1).1

/-- One base column node: structural agreement and (in a strong position)
nonempty render without trailing space. -/
theorem colNode_props (t : Option Table) (col : QueryWithArgs)
    (hcol : wfNodeS col = true)
    (ht : ∀ tbl, t = some tbl → wfTable tbl = true) :
    SubstRel (colNode t .nop col) (colNode t .literal col) col.argList ∧
      ∀ f : Fmter, colNode t f col ≠ [] ∧ endsOkay (colNode t f col) := by
  obtain ⟨hw, hq, he, hv⟩ := wfNodeS_parts col hcol
  cases hargs : col.args with
  | none =>
    cases t with
    | none =>
      have hsame : ∀ f : Fmter, colNode none f col = col.render f := by
        intro f
        simp only [colNode, hargs]
      constructor
      · rw [hsame .nop, hsame .literal]
        exact SubstRel.node col hw
      · intro f
        rw [hsame f]
        exact node_render_props col f hcol
    | some tbl =>
      obtain ⟨hta, hts, htf⟩ := wfTable_parts tbl (ht tbl rfl)
      cases hfind : tbl.fieldMap col.query with
      | none =>
        have hsame : ∀ f : Fmter, colNode (some tbl) f col = col.render f := by
          intro f
          simp only [colNode, hargs, hfind]
        constructor
        · rw [hsame .nop, hsame .literal]
          exact SubstRel.node col hw
        · intro f
          rw [hsame f]
          exact node_render_props col f hcol
      | some fl =>
        have hmem : fl ∈ tbl.fields := List.mem_of_find?_eq_some hfind
        obtain ⟨hsn1, hsn2, hsn3⟩ := wfIdent_parts _ (htf fl hmem).2
        obtain ⟨hta1, hta2, hta3⟩ := wfIdent_parts _ hta
        have hsame : ∀ f : Fmter, colNode (some tbl) f col =
            tbl.alias_ ++ '.' :: fl.sqlName := by
          intro f
          simp only [colNode, hargs, hfind]
        have hzero : phCount (tbl.alias_ ++ '.' :: fl.sqlName) = 0 := by
          rw [phCount_append, phCount_cons_other _ _ (by decide), hta2, hsn2]
        constructor
        · rw [hsame .nop, hsame .literal]
          have : col.argList = [] := by
            rw [QueryWithArgs.argList, hargs]
            rfl
          rw [this]
          exact SubstRel.const _ hzero
        · intro f
          rw [hsame f]
          have eX := endsOkay_extend ['.'] fl.sqlName hsn3 hsn1
          have eW := endsOkay_extend tbl.alias_ ('.' :: fl.sqlName) eX.1 eX.2
          exact ⟨eW.2, eW.1⟩
  | some vs =>
    have hsame : ∀ f : Fmter, colNode t f col = col.render f := by
      intro f
      cases t <;> simp [colNode, hargs]
    constructor
    · rw [hsame .nop, hsame .literal]
      exact SubstRel.node col hw
    · intro f
      rw [hsame f]
      exact node_render_props col f hcol

/-- The base column list under well-formedness (and outside the Nop
abbreviation): structural agreement, mode-independent emptiness, no
trailing space. -/
theorem baseCols_props (c : List QueryWithArgs) (t : Option Table)
    (hc : ∀ n ∈ c, wfNodeS n = true)
    (ht : ∀ tbl, t = some tbl → wfTable tbl = true)
    (hna : c ≠ [] ∨ ∀ tbl, t = some tbl → tbl.fields.length ≤ 10) :
    SubstRel (baseCols c t .nop) (baseCols c t .literal)
        ((c.map QueryWithArgs.argList).flatten) ∧
      (baseCols c t .nop = [] ↔ baseCols c t .literal = []) ∧
      ∀ f : Fmter, endsOkay (baseCols c t f) := by
  by_cases hb : c.isEmpty
  · have hcnil : c = [] := by simpa using hb
    subst hcnil
    cases t with
    | none =>
      refine ⟨SubstRel.const ['*'] (by decide), Iff.rfl, ?_⟩
      intro f
      unfold endsOkay
      cases f <;> decide
    | some tbl =>
      have hle : tbl.fields.length ≤ 10 := by
        rcases hna with h1 | h1
        · exact absurd rfl h1
        · exact h1 tbl rfl
      obtain ⟨hta, hts, htf⟩ := wfTable_parts tbl (ht tbl rfl)
      have hsame : ∀ f : Fmter, baseCols [] (some tbl) f =
          appendColumnsHelper tbl.alias_ tbl.fields := by
        intro f
        have h1 : ¬ 10 < tbl.fields.length := by omega
        simp [baseCols, h1]
      have hprops := appendColumnsHelper_props tbl.alias_ tbl.fields
        (Or.inr hta) (fun fl hfl => (htf fl hfl).2)
      refine ⟨?_, ?_, ?_⟩
      · rw [hsame .nop, hsame .literal]
        simpa using SubstRel.const _ hprops.1
      · rw [hsame .nop, hsame .literal]
      · intro f
        rw [hsame f]
        exact hprops.2.2
  · have hcne : c ≠ [] := by simpa using hb
    have hsame : ∀ f : Fmter, baseCols c t f = commaSep (c.map (colNode t f)) := by
      intro f
      unfold baseCols
      rw [if_neg hb]
    have hpieces : ∀ n ∈ c,
        SubstRel (colNode t .nop n) (colNode t .literal n) n.argList ∧
          ∀ f : Fmter, colNode t f n ≠ [] ∧ endsOkay (colNode t f n) :=
      fun n hn => colNode_props t n (hc n hn) ht
    have hjoin : ∀ f : Fmter, commaSep (c.map (colNode t f)) ≠ [] ∧
        endsOkay (commaSep (c.map (colNode t f))) := by
      intro f
      unfold commaSep
      exact sepJoin_endsOkay ", ".toList (c.map (colNode t f))
        (by
          intro x hx
          rw [List.mem_map] at hx
          obtain ⟨n, hn, hx2⟩ := hx
          exact ⟨hx2 ▸ ((hpieces n hn).2 f).1, hx2 ▸ ((hpieces n hn).2 f).2⟩)
        (by simp [hcne])
    refine ⟨?_, ?_, ?_⟩
    · rw [hsame .nop, hsame .literal]
      unfold commaSep
      exact SubstRel.sepJoinList ", ".toList (by decide) c _ _ _
        (fun n hn => (hpieces n hn).1)
    · rw [hsame .nop, hsame .literal]
      constructor
      · intro hh
        exact absurd hh (hjoin .nop).1
      · intro hh
        exact absurd hh (hjoin .literal).1
    · intro f
      rw [hsame f]
      exact (hjoin f).2

/-- The whole column area of `appendQuery` (base columns, has-one join
columns, trim) under well-formedness: placeholder and literal renders
agree structurally with the column-area argument stream. -/
theorem appendColumnsB_props (c : List QueryWithArgs) (t : Option Table)
    (tm : Option TableModel)
    (hc : ∀ n ∈ c, wfNodeS n = true)
    (ht : ∀ tbl, t = some tbl → wfTable tbl = true)
    (hna : c ≠ [] ∨ ∀ tbl, t = some tbl → tbl.fields.length ≤ 10)
    (hj : ∀ j ∈ modelHasOneJoins tm, wfJoin j = true) :
    SubstRel (appendColumnsB c t tm .nop) (appendColumnsB c t tm .literal)
      ((c.map QueryWithArgs.argList).flatten ++
        ((modelHasOneJoins tm).map joinColsArgs).flatten) := by
  obtain ⟨hrel, hiff, hok⟩ := baseCols_props c t hc ht hna
  have hpend : decide (baseCols c t .literal ≠ []) = decide (baseCols c t .nop ≠ []) := by
    rw [decide_eq_decide]
    exact not_congr hiff.symm
  obtain ⟨grel, gnil, gne⟩ := colsGlue_props (modelHasOneJoins tm) hj
    (decide (baseCols c t .nop ≠ []))
  have okwhole : ∀ f : Fmter, endsOkay (baseCols c t f ++
      colsGlue f (modelHasOneJoins tm) (decide (baseCols c t .nop ≠ []))) := by
    intro f
    cases hjs : modelHasOneJoins tm with
    | nil =>
      rw [show colsGlue f ([] : List Join) (decide (baseCols c t .nop ≠ [])) = []
        from rfl, List.append_nil]
      exact hok f
    | cons j2 js2 =>
      have := gne (by simp [hjs]) f
      rw [hjs] at this
      exact endsOkay_append _ this.2 this.1
  rw [appendColumnsB_glue, appendColumnsB_glue, hpend]
  have h1 := trimSuffix_noop _ (okwhole .nop)
  have h2 := trimSuffix_noop _ (okwhole .literal)
  rw [h1, h2]
  exact hrel.append grel

theorem tablesGlue_props (ns : List QueryWithArgs)
    (h : ∀ n ∈ ns, wfNodeS n = true) (pend : Bool) :
    SubstRel (tablesGlue .nop ns pend) (tablesGlue .literal ns pend)
      ((ns.map QueryWithArgs.argList).flatten) := by
  induction ns generalizing pend with
  | nil => exact SubstRel.refl_nil
  | cons n ns ih =>
    have hn := h n (by simp)
    have hd : ∀ f : Fmter, decide (n.render f ≠ []) = true :=
      fun f => decide_eq_true (node_render_props n f hn).1
    have hsame : ∀ f : Fmter, tablesGlue f (n :: ns) pend =
        (if pend then ", ".toList else []) ++ n.render f ++
          tablesGlue f ns (pend || true) := by
      intro f
      rw [tablesGlue, hd f]
    rw [hsame .nop, hsame .literal]
    have step := ((SubstRel.const (if pend then ", ".toList else [])
      (by cases pend <;> decide)).append (SubstRel.node n (wfNodeS_parts n hn).1)).append
      (ih (fun n2 hn2 => h n2 (by simp [hn2])) (pend || true))
    simp only [List.map_cons, List.flatten_cons]
    simpa using step

/-- The model-table piece: structural agreement with the `ModelTableExpr`
arguments, and mode-independent emptiness. -/
theorem modelTablePart_props (t : Option Table) (mt : Option QueryWithArgs)
    (hmt : ∀ n, mt = some n → wfNodeS n = true)
    (ht : ∀ tbl, t = some tbl → wfTable tbl = true) :
    SubstRel (modelTablePart t mt .nop) (modelTablePart t mt .literal)
        ((mt.map QueryWithArgs.argList).getD []) ∧
      (modelTablePart t mt .nop = [] ↔ modelTablePart t mt .literal = []) := by
  cases hmtv : mt with
  | some n =>
    have hwn := hmt n hmtv
    have hsame : ∀ f : Fmter, modelTablePart t (some n) f = n.render f := by
      intro f
      simp [modelTablePart, modelHasTableName]
    rw [hsame .nop, hsame .literal]
    refine ⟨by simpa using SubstRel.node n (wfNodeS_parts n hwn).1, ?_⟩
    constructor
    · intro hc
      exact absurd hc (node_render_props n .nop hwn).1
    · intro hc
      exact absurd hc (node_render_props n .literal hwn).1
  | none =>
    cases htv : t with
    | some tbl =>
      have hsame : ∀ f : Fmter, modelTablePart (some tbl) none f =
          tbl.sqlNameForSelects ++
            (if tbl.alias_ ≠ tbl.sqlNameForSelects then " AS ".toList ++ tbl.alias_ else []) := by
        intro f
        simp [modelTablePart, modelHasTableName]
      rw [hsame .nop, hsame .literal]
      obtain ⟨hta, hts2, _⟩ := wfTable_parts tbl (ht tbl htv)
      obtain ⟨h1, h2, h3⟩ := wfIdent_parts _ hts2
      obtain ⟨ha1, ha2, ha3⟩ := wfIdent_parts _ hta
      refine ⟨SubstRel.const _ ?_, Iff.rfl⟩
      rw [phCount_append, h2]
      by_cases he : tbl.alias_ ≠ tbl.sqlNameForSelects
      · rw [if_pos he, phCount_append, ha2]
        decide
      · rw [if_neg he]
        decide
    | none =>
      have hsame : ∀ f : Fmter, modelTablePart none none f = [] := by
        intro f
        simp [modelTablePart, modelHasTableName]
      rw [hsame .nop, hsame .literal]
      exact ⟨SubstRel.refl_nil, Iff.rfl⟩

/-- The FROM block under well-formedness: structural agreement with the
model-table and table-list argument stream. -/
theorem appendTablesB_props (t : Option Table) (mt : Option QueryWithArgs)
    (ts : List QueryWithArgs)
    (hmt : ∀ n, mt = some n → wfNodeS n = true)
    (ht : ∀ tbl, t = some tbl → wfTable tbl = true)
    (hts : ∀ n ∈ ts, wfNodeS n = true) :
    SubstRel (appendTablesB t mt ts .nop) (appendTablesB t mt ts .literal)
      ((mt.map QueryWithArgs.argList).getD [] ++ (ts.map QueryWithArgs.argList).flatten) := by
  obtain ⟨hmrel, hmiff⟩ := modelTablePart_props t mt hmt ht
  by_cases hh : hasTablesB t mt ts = true
  · have hunfold : ∀ f : Fmter, appendTablesB t mt ts f =
        " FROM ".toList ++ tablesFold f ts (modelTablePart t mt f) := by
      intro f
      unfold appendTablesB
      rw [if_pos hh]
    have hpend : decide (modelTablePart t mt .literal ≠ []) =
        decide (modelTablePart t mt .nop ≠ []) := by
      rw [decide_eq_decide]
      exact not_congr hmiff.symm
    rw [hunfold .nop, hunfold .literal, tablesFold_glue, tablesFold_glue, hpend]
    exact SubstRel.constLeft " FROM ".toList (by decide)
      (hmrel.append (tablesGlue_props ts hts _))
  · have hmt0 : mt = none := by
      cases mt with
      | none => rfl
      | some n => simp [hasTablesB, modelHasTableName] at hh
    have hts0 : ts = [] := by
      cases hts2 : ts with
      | nil => rfl
      | cons a l =>
        rw [hts2] at hh
        simp [hasTablesB] at hh
    have hsame : ∀ f : Fmter, appendTablesB t mt ts f = [] := by
      intro f
      unfold appendTablesB
      rw [if_neg hh]
    rw [hsame .nop, hsame .literal, hmt0, hts0]
    exact SubstRel.refl_nil

/-- One has-one join fragment: structural agreement with the ON-condition
arguments. -/
theorem hasOneJoinFrag_props (j : Join) (h : wfJoin j = true) :
    SubstRel (' ' :: hasOneJoinFrag .nop j) (' ' :: hasOneJoinFrag .literal j)
      j.onCond.argList := by
  obtain ⟨_, _, hal, htab, hcond, _⟩ := wfJoin_parts j h
  obtain ⟨hta, hts, _⟩ := wfTable_parts _ htab
  obtain ⟨h1, h2, _⟩ := wfIdent_parts _ hts
  obtain ⟨ha1, ha2, _⟩ := wfIdent_parts _ hal
  have hpre : phCount (' ' :: ("JOIN ".toList ++ j.table.sqlNameForSelects ++
      " AS ".toList ++ j.alias_ ++ " ON (".toList)) = 0 := by
    rw [phCount_cons_other _ _ (by decide)]
    simp only [phCount_append]
    rw [h2, ha2]
    decide
  have step := (SubstRel.const _ hpre).append
    ((SubstRel.node j.onCond hcond).append (SubstRel.const [')'] (by decide)))
  unfold hasOneJoinFrag
  have shape : ∀ f : Fmter, ' ' :: ("JOIN ".toList ++ j.table.sqlNameForSelects ++
      " AS ".toList ++ j.alias_ ++ " ON (".toList ++ j.onCond.render f ++ [')']) =
      (' ' :: ("JOIN ".toList ++ j.table.sqlNameForSelects ++ " AS ".toList ++
        j.alias_ ++ " ON (".toList)) ++ (j.onCond.render f ++ [')']) := by
    intro f
    simp
  rw [shape .nop, shape .literal]
  simpa using step

/-- The has-one `JOIN` fragments block. -/
theorem hasOneJoinsB_props (tm : Option TableModel)
    (hj : ∀ j ∈ modelHasOneJoins tm, wfJoin j = true) :
    SubstRel (hasOneJoinsB tm .nop) (hasOneJoinsB tm .literal)
      (((modelHasOneJoins tm).map (fun j => j.onCond.argList)).flatten) := by
  unfold hasOneJoinsB
  exact SubstRel.flatList (modelHasOneJoins tm) _ _ _
    (fun j hjm => hasOneJoinFrag_props j (hj j hjm))

theorem sepParenList_props (l : List QueryWithSep)
    (h : ∀ o ∈ l, wfNodeW o.node = true ∧ phCount o.sep = 0) :
    SubstRel (sepParenList .nop l) (sepParenList .literal l) (sepListArgs l) := by
  cases l with
  | nil => exact SubstRel.refl_nil
  | cons o os =>
    have hfirst : SubstRel ('(' :: o.node.render .nop ++ [')'])
        ('(' :: o.node.render .literal ++ [')']) o.node.argList := by
      have := (SubstRel.constLeft ['('] (by decide)
        (SubstRel.node o.node (h o (by simp)).1)).constRight [')'] (by decide)
      simpa using this
    have hrest := SubstRel.flatList os
      (fun o2 => o2.sep ++ '(' :: o2.node.render .nop ++ [')'])
      (fun o2 => o2.sep ++ '(' :: o2.node.render .literal ++ [')'])
      (fun o2 => o2.node.argList)
      (by
        intro o2 ho2
        have hw := h o2 (by simp [ho2])
        have := (SubstRel.constLeft (o2.sep ++ ['(']) (by
            rw [phCount_append, hw.2]
            decide)
          (SubstRel.node o2.node hw.1)).constRight [')'] (by decide)
        simpa [List.append_assoc] using this)
    have step := hfirst.append hrest
    unfold sepParenList sepListArgs
    simpa using step

theorem joinQueryB_props (jq : JoinQuery) (h : wfJoinQ jq = true) :
    SubstRel (joinQueryB .nop jq) (joinQueryB .literal jq) (joinQArgs jq) := by
  unfold wfJoinQ at h
  rw [Bool.and_eq_true] at h
  have hjoin := SubstRel.constLeft [' '] (by decide) (SubstRel.node jq.join h.1)
  have honds : ∀ o ∈ jq.onList, wfNodeW o.node = true ∧ phCount o.sep = 0 := by
    intro o ho
    have := List.all_eq_true.mp h.2 o ho
    rw [Bool.and_eq_true] at this
    exact ⟨this.1, by simpa using this.2⟩
  by_cases hoe : jq.onList.isEmpty
  · have hsame : ∀ f : Fmter, joinQueryB f jq = ' ' :: jq.join.render f := by
      intro f
      unfold joinQueryB
      rw [if_pos hoe, List.append_nil]
    rw [hsame .nop, hsame .literal]
    have hargs : joinQArgs jq = jq.join.argList := by
      unfold joinQArgs
      have : jq.onList = [] := by simpa using hoe
      rw [this]
      simp
    rw [hargs]
    simpa using hjoin
  · have hsame : ∀ f : Fmter, joinQueryB f jq =
        (' ' :: jq.join.render f) ++ (" ON ".toList ++ sepParenList f jq.onList) := by
      intro f
      unfold joinQueryB
      rw [if_neg hoe]
    rw [hsame .nop, hsame .literal]
    have := hjoin.append (SubstRel.constLeft " ON ".toList (by decide)
      (sepParenList_props jq.onList honds))
    unfold joinQArgs
    simpa [sepListArgs] using this

theorem joinsB_props (js : List JoinQuery) (h : ∀ jq ∈ js, wfJoinQ jq = true) :
    SubstRel (joinsB js .nop) (joinsB js .literal) ((js.map joinQArgs).flatten) := by
  unfold joinsB
  exact SubstRel.flatList js _ _ _ (fun jq hjq => joinQueryB_props jq (h jq hjq))

theorem whereB_props (w : List QueryWithSep)
    (h : ∀ o ∈ w, wfNodeW o.node = true ∧ phCount o.sep = 0) :
    SubstRel (whereB w .nop) (whereB w .literal) (sepListArgs w) := by
  by_cases hwe : w.isEmpty
  · have hnil : w = [] := by simpa using hwe
    subst hnil
    have hsame : ∀ f : Fmter, whereB [] f = [] := by
      intro f
      unfold whereB
      simp
    rw [hsame .nop, hsame .literal]
    exact SubstRel.refl_nil
  · have hsame : ∀ f : Fmter, whereB w f = " WHERE ".toList ++ sepParenList f w := by
      intro f
      unfold whereB
      rw [if_neg hwe]
    rw [hsame .nop, hsame .literal]
    exact SubstRel.constLeft " WHERE ".toList (by decide) (sepParenList_props w h)

theorem groupB_props (g : List QueryWithArgs) (h : ∀ n ∈ g, wfNodeW n = true) :
    SubstRel (groupB g .nop) (groupB g .literal) ((g.map QueryWithArgs.argList).flatten) := by
  by_cases hge : g.isEmpty
  · have hnil : g = [] := by simpa using hge
    subst hnil
    have hsame : ∀ f : Fmter, groupB [] f = [] := by
      intro f
      unfold groupB
      simp
    rw [hsame .nop, hsame .literal]
    exact SubstRel.refl_nil
  · have hsame : ∀ f : Fmter, groupB g f =
        " GROUP BY ".toList ++ commaSep (g.map (fun n => n.render f)) := by
      intro f
      unfold groupB
      rw [if_neg hge]
    rw [hsame .nop, hsame .literal]
    have inner : SubstRel (commaSep (g.map (fun n => n.render .nop)))
        (commaSep (g.map (fun n => n.render .literal)))
        ((g.map QueryWithArgs.argList).flatten) := by
      unfold commaSep
      exact SubstRel.sepJoinList ", ".toList (by decide) g _ _ _
        (fun n hn => SubstRel.node n (h n hn))
    exact SubstRel.constLeft " GROUP BY ".toList (by decide) inner

theorem havingB_props (hv : List QueryWithArgs) (h : ∀ n ∈ hv, wfNodeW n = true) :
    SubstRel (havingB hv .nop) (havingB hv .literal)
      ((hv.map QueryWithArgs.argList).flatten) := by
  by_cases hge : hv.isEmpty
  · have hnil : hv = [] := by simpa using hge
    subst hnil
    have hsame : ∀ f : Fmter, havingB [] f = [] := by
      intro f
      unfold havingB
      simp
    rw [hsame .nop, hsame .literal]
    exact SubstRel.refl_nil
  · have hsame : ∀ f : Fmter, havingB hv f =
        " HAVING ".toList ++
          sepJoin " AND ".toList (hv.map (fun n => '(' :: n.render f ++ [')'])) := by
      intro f
      unfold havingB
      rw [if_neg hge]
    rw [hsame .nop, hsame .literal]
    refine SubstRel.constLeft _ (by decide) ?_
    exact SubstRel.sepJoinList " AND ".toList (by decide) hv _ _ _
      (fun n hn => by
        have := (SubstRel.constLeft ['('] (by decide)
          (SubstRel.node n (h n hn))).constRight [')'] (by decide)
        simpa using this)

theorem orderB_props (o : List QueryWithArgs) (h : ∀ n ∈ o, wfNodeW n = true) :
    SubstRel (orderB o .nop) (orderB o .literal) ((o.map QueryWithArgs.argList).flatten) := by
  by_cases hge : o.isEmpty
  · have hnil : o = [] := by simpa using hge
    subst hnil
    have hsame : ∀ f : Fmter, orderB [] f = [] := by
      intro f
      unfold orderB
      simp
    rw [hsame .nop, hsame .literal]
    exact SubstRel.refl_nil
  · have hsame : ∀ f : Fmter, orderB o f =
        " ORDER BY ".toList ++ commaSep (o.map (fun n => n.render f)) := by
      intro f
      unfold orderB
      rw [if_neg hge]
    rw [hsame .nop, hsame .literal]
    have inner : SubstRel (commaSep (o.map (fun n => n.render .nop)))
        (commaSep (o.map (fun n => n.render .literal)))
        ((o.map QueryWithArgs.argList).flatten) := by
      unfold commaSep
      exact SubstRel.sepJoinList ", ".toList (by decide) o _ _ _
        (fun n hn => SubstRel.node n (h n hn))
    exact SubstRel.constLeft " ORDER BY ".toList (by decide) inner

theorem distinctPart_props (d : Option (List QueryWithArgs))
    (h : ∀ n ∈ d.getD [], wfNodeW n = true) :
    SubstRel (distinctPart d .nop) (distinctPart d .literal)
      (((d.getD []).map QueryWithArgs.argList).flatten) := by
  cases d with
  | none => exact SubstRel.refl_nil
  | some l =>
    by_cases hle : l.isEmpty
    · have hnil : l = [] := by simpa using hle
      subst hnil
      have hsame : ∀ f : Fmter, distinctPart (some []) f = "DISTINCT ".toList := by
        intro f
        unfold distinctPart
        simp
      rw [hsame .nop, hsame .literal]
      exact SubstRel.const _ (by decide)
    · have hsame : ∀ f : Fmter, distinctPart (some l) f =
          "DISTINCT ON (".toList ++ commaSep (l.map (fun n => n.render f)) ++ ") ".toList := by
        intro f
        simp only [distinctPart]
        rw [if_neg hle]
      rw [hsame .nop, hsame .literal]
      have inner : SubstRel (commaSep (l.map (fun n => n.render .nop)))
          (commaSep (l.map (fun n => n.render .literal)))
          ((l.map QueryWithArgs.argList).flatten) := by
        unfold commaSep
        exact SubstRel.sepJoinList ", ".toList (by decide) l _ _ _
          (fun n hn => SubstRel.node n (h n (by simpa using hn)))
      have := (SubstRel.constLeft "DISTINCT ON (".toList (by decide) inner).constRight
        ") ".toList (by decide)
      simpa using this

theorem digitChar_ne_ph (m : Nat) (hm : m < 10) : digitChar m ≠ '?' := by
  interval_cases m <;> decide

theorem natDigitsAux_ph (fuel n : Nat) : phCount (natDigitsAux fuel n) = 0 := by
  induction fuel generalizing n with
  | zero => rfl
  | succ fuel ih =>
    unfold natDigitsAux
    by_cases hn : n < 10
    · rw [if_pos hn]
      simp [phCount, List.count_cons, digitChar_ne_ph n hn]
    · rw [if_neg hn]
      rw [phCount_append, ih]
      have hm : n % 10 < 10 := Nat.mod_lt _ (by omega)
      simp [phCount, List.count_cons, digitChar_ne_ph _ hm]

theorem intDigits_ph (i : Int) : phCount (intDigits i) = 0 := by
  unfold intDigits
  by_cases hi : i < 0
  · rw [if_pos hi, phCount_cons_other _ _ (by decide)]
    exact natDigitsAux_ph _ _
  · rw [if_neg hi]
    exact natDigitsAux_ph _ _

theorem limitB_ph (l : Int) : phCount (limitB l) = 0 := by
  unfold limitB
  by_cases hl : l ≠ 0
  · rw [if_pos hl, phCount_append, intDigits_ph]
    decide
  · rw [if_neg hl]
    rfl

theorem offsetB_ph (o : Int) : phCount (offsetB o) = 0 := by
  unfold offsetB
  by_cases hl : o ≠ 0
  · rw [if_pos hl, phCount_append, intDigits_ph]
    decide
  · rw [if_neg hl]
    rfl

theorem forB_props (s : Option QueryWithArgs)
    (h : ∀ n, s = some n → wfNodeW n = true) :
    SubstRel (forB s .nop) (forB s .literal) ((s.map QueryWithArgs.argList).getD []) := by
  cases hs : s with
  | none => exact SubstRel.refl_nil
  | some n =>
    have hsame : ∀ f : Fmter, forB (some n) f = " FOR ".toList ++ n.render f := by
      intro f
      unfold forB
      rfl
    rw [hsame .nop, hsame .literal]
    simpa using SubstRel.constLeft " FOR ".toList (by decide) (SubstRel.node n (h n hs))

/-- The one-step unfolding of `renderBody` at a constructor. -/
theorem renderBody_mk_eq (e : Option Str) (d : Option (List QueryWithArgs))
    (c : List QueryWithArgs) (t : Option Table) (tm : Option TableModel)
    (mt : Option QueryWithArgs) (ts : List QueryWithArgs) (js : List JoinQuery)
    (w : List QueryWithSep) (g h o : List QueryWithArgs) (l of : Int)
    (s : Option QueryWithArgs) (u : Unions) (f : Fmter) (count : Bool) :
    renderBody (.mk e d c t tm mt ts js w g h o l of s u) f count =
      (let cteCount := count && (!g.isEmpty || d.isSome)
      (if cteCount then "WITH _count_wrapper AS (".toList else []) ++
      (if u.isNil then [] else ['(']) ++
      "SELECT ".toList ++
      distinctPart d f ++
      (if count && !cteCount then "count(*)".toList else appendColumnsB c t tm f) ++
      appendTablesB t mt ts f ++
      hasOneJoinsB tm f ++
      joinsB js f ++
      whereB w f ++
      groupB g f ++
      havingB h f ++
      (if count then [] else orderB o f ++ limitB l ++ offsetB of ++ forB s f) ++
      (if u.isNil then [] else ')' :: renderUnions u f) ++
      (if cteCount then ") SELECT count(*) FROM _count_wrapper".toList else [])) := rfl

/-- The one-step unfolding of `renderUnions` at a cons cell. -/
theorem renderUnions_cons_eq (ex : Str) (uq : SelectQuery) (rest : Unions) (f : Fmter) :
    renderUnions (.cons ex uq rest) f =
      ex ++ '(' :: renderBody uq f false ++ [')'] ++ renderUnions rest f := rfl

/-- The one-step unfolding of `wfQ` at a constructor. -/
theorem wfQ_mk_eq (e : Option Str) (d : Option (List QueryWithArgs))
    (c : List QueryWithArgs) (t : Option Table) (tm : Option TableModel)
    (mt : Option QueryWithArgs) (ts : List QueryWithArgs) (js : List JoinQuery)
    (w : List QueryWithSep) (g h o : List QueryWithArgs) (l of : Int)
    (s : Option QueryWithArgs) (u : Unions) :
    wfQ (.mk e d c t tm mt ts js w g h o l of s u) =
      ((d.getD []).all wfNodeW &&
      c.all wfNodeS &&
      wfTableOpt c t &&
      wfJoinsOpt tm &&
      wfNodeSOpt mt &&
      ts.all wfNodeS &&
      js.all wfJoinQ &&
      w.all (fun o => wfNodeW o.node && (phCount o.sep == 0)) &&
      g.all wfNodeW && h.all wfNodeW && o.all wfNodeW &&
      wfNodeWOpt s &&
      wfU u) := rfl

/-- The one-step unfolding of `wfU` at a cons cell. -/
theorem wfU_cons_eq (ex : Str) (uq : SelectQuery) (rest : Unions) :
    wfU (.cons ex uq rest) = ((phCount ex == 0) && wfQ uq && wfU rest) := rfl

/-- The one-step unfolding of `argsOf` at a constructor. -/
theorem argsOf_mk_eq (e : Option Str) (d : Option (List QueryWithArgs))
    (c : List QueryWithArgs) (t : Option Table) (tm : Option TableModel)
    (mt : Option QueryWithArgs) (ts : List QueryWithArgs) (js : List JoinQuery)
    (w : List QueryWithSep) (g h o : List QueryWithArgs) (l of : Int)
    (s : Option QueryWithArgs) (u : Unions) :
    argsOf (.mk e d c t tm mt ts js w g h o l of s u) =
      ((d.getD []).map QueryWithArgs.argList).flatten ++
      ((c.map QueryWithArgs.argList).flatten ++
        ((modelHasOneJoins tm).map joinColsArgs).flatten) ++
      ((mt.map QueryWithArgs.argList).getD [] ++ (ts.map QueryWithArgs.argList).flatten) ++
      ((modelHasOneJoins tm).map (fun j => j.onCond.argList)).flatten ++
      (js.map joinQArgs).flatten ++
      sepListArgs w ++
      (g.map QueryWithArgs.argList).flatten ++
      (h.map QueryWithArgs.argList).flatten ++
      (o.map QueryWithArgs.argList).flatten ++
      (s.map QueryWithArgs.argList).getD [] ++
      argsU u := rfl

/-- The one-step unfolding of `argsU` at a cons cell. -/
theorem argsU_cons_eq (ex : Str) (uq : SelectQuery) (rest : Unions) :
    argsU (.cons ex uq rest) = argsOf uq ++ argsU rest := rfl

/-- A non-count render is the plain concatenation of the clause blocks
(no CTE wrapper, union parentheses as needed). -/
theorem renderBody_false_eq (e : Option Str) (d : Option (List QueryWithArgs))
    (c : List QueryWithArgs) (t : Option Table) (tm : Option TableModel)
    (mt : Option QueryWithArgs) (ts : List QueryWithArgs) (js : List JoinQuery)
    (w : List QueryWithSep) (g h o : List QueryWithArgs) (l of : Int)
    (s : Option QueryWithArgs) (u : Unions) (f : Fmter) :
    renderBody (.mk e d c t tm mt ts js w g h o l of s u) f false =
      (if u.isNil then [] else ['(']) ++
      "SELECT ".toList ++ distinctPart d f ++ appendColumnsB c t tm f ++
      appendTablesB t mt ts f ++ hasOneJoinsB tm f ++ joinsB js f ++ whereB w f ++
      groupB g f ++ havingB h f ++
      (orderB o f ++ limitB l ++ offsetB of ++ forB s f) ++
      (if u.isNil then [] else ')' :: renderUnions u f) := by
  rw [renderBody_mk_eq]
  simp

set_option maxHeartbeats 1600000 in
mutual
/-- C1 core: for a well-formed query, the literal render is the
placeholder render with the argument stream substituted at the `?`
positions, and the placeholder render has exactly one `?` per argument. -/
theorem renderBody_substRel : ∀ (q : SelectQuery), wfQ q = true →
    SubstRel (renderBody q .nop false) (renderBody q .literal false) (argsOf q)
  | .mk e d c t tm mt ts js w g h o l of s u, hwf => by
    rw [wfQ_mk_eq] at hwf
    simp only [Bool.and_eq_true] at hwf
    obtain ⟨⟨⟨⟨⟨⟨⟨⟨⟨⟨⟨⟨hd, hc⟩, ht0⟩, htm⟩, hmt⟩, hts⟩, hjs⟩, hw⟩, hg⟩, hh⟩, ho⟩, hs⟩, hu⟩ := hwf
    have hdp : ∀ n ∈ d.getD [], wfNodeW n = true :=
      fun n hn => List.all_eq_true.mp hd n hn
    have hcp : ∀ n ∈ c, wfNodeS n = true :=
      fun n hn => List.all_eq_true.mp hc n hn
    have htab : ∀ tbl, t = some tbl → wfTable tbl = true := by
      intro tbl htv
      rw [htv] at ht0
      simp only [wfTableOpt, Bool.and_eq_true] at ht0
      exact ht0.1
    have hna : c ≠ [] ∨ ∀ tbl, t = some tbl → tbl.fields.length ≤ 10 := by
      by_cases hce : c.isEmpty
      · right
        intro tbl htv
        rw [htv] at ht0
        simp only [wfTableOpt, Bool.and_eq_true] at ht0
        have := ht0.2
        rw [Bool.or_eq_true] at this
        rcases this with h1 | h1
        · rw [hce] at h1
          simp at h1
        · simpa using h1
      · left
        simpa using hce
    have hjoins : ∀ j ∈ modelHasOneJoins tm, wfJoin j = true := by
      intro j hj
      cases htmv : tm with
      | none =>
        rw [htmv] at hj
        simp [modelHasOneJoins] at hj
      | some m =>
        rw [htmv] at hj
        rw [htmv] at htm
        simp only [wfJoinsOpt] at htm
        exact wfJoins_flat m.joins htm j hj
    have hmtp : ∀ n, mt = some n → wfNodeS n = true := by
      intro n hv
      rw [hv] at hmt
      simpa only [wfNodeSOpt] using hmt
    have htsp : ∀ n ∈ ts, wfNodeS n = true :=
      fun n hn => List.all_eq_true.mp hts n hn
    have hjsp : ∀ jq ∈ js, wfJoinQ jq = true :=
      fun jq hjq => List.all_eq_true.mp hjs jq hjq
    have hwp : ∀ o2 ∈ w, wfNodeW o2.node = true ∧ phCount o2.sep = 0 := by
      intro o2 ho2
      have := List.all_eq_true.mp hw o2 ho2
      rw [Bool.and_eq_true] at this
      exact ⟨this.1, by simpa using this.2⟩
    have hgp : ∀ n ∈ g, wfNodeW n = true :=
      fun n hn => List.all_eq_true.mp hg n hn
    have hhp : ∀ n ∈ h, wfNodeW n = true :=
      fun n hn => List.all_eq_true.mp hh n hn
    have hop : ∀ n ∈ o, wfNodeW n = true :=
      fun n hn => List.all_eq_true.mp ho n hn
    have hsp : ∀ n, s = some n → wfNodeW n = true := by
      intro n hv
      rw [hv] at hs
      simpa only [wfNodeWOpt] using hs
    have sD := distinctPart_props d hdp
    have sC := appendColumnsB_props c t tm hcp htab hna hjoins
    have sT := appendTablesB_props t mt ts hmtp htab htsp
    have sHJ := hasOneJoinsB_props tm hjoins
    have sJ := joinsB_props js hjsp
    have sW := whereB_props w hwp
    have sG := groupB_props g hgp
    have sH := havingB_props h hhp
    have sO := orderB_props o hop
    have sL := SubstRel.const (limitB l) (limitB_ph l)
    have sOF := SubstRel.const (offsetB of) (offsetB_ph of)
    have sF := forB_props s hsp
    have sTail := ((sO.append sL).append sOF).append sF
    have sU : SubstRel (if u.isNil then [] else ')' :: renderUnions u .nop)
        (if u.isNil then [] else ')' :: renderUnions u .literal) (argsU u) := by
      cases u with
      | nil => exact SubstRel.refl_nil
      | cons ex uq rest =>
        show SubstRel (')' :: renderUnions (.cons ex uq rest) .nop)
          (')' :: renderUnions (.cons ex uq rest) .literal) (argsU (.cons ex uq rest))
        exact SubstRel.constLeft [')'] (by decide)
          (renderUnions_substRel (.cons ex uq rest) hu)
    have sPre : SubstRel ((if u.isNil then [] else ['(']) ++ "SELECT ".toList)
        ((if u.isNil then [] else ['(']) ++ "SELECT ".toList) [] := by
      refine SubstRel.const _ ?_
      have h1 : phCount (if u.isNil then [] else ['(']) = 0 := by
        cases hu2 : u.isNil
        · rw [if_neg (by simp [hu2])]
          decide
        · rw [if_pos (by simp [hu2])]
          decide
      rw [phCount_append, h1]
      decide
    have whole := ((((((((((sPre.append sD).append sC).append sT).append
      sHJ).append sJ).append sW).append sG).append sH).append sTail).append sU)
    rw [renderBody_false_eq, renderBody_false_eq]
    rw [argsOf_mk_eq]
    simpa [List.append_assoc] using whole

theorem renderUnions_substRel : ∀ (u : Unions), wfU u = true →
    SubstRel (renderUnions u .nop) (renderUnions u .literal) (argsU u)
  | .nil, _ => SubstRel.refl_nil
  | .cons ex uq rest, hwf => by
    rw [wfU_cons_eq] at hwf
    simp only [Bool.and_eq_true] at hwf
    obtain ⟨⟨hex, huq⟩, hrest⟩ := hwf
    have sBody := renderBody_substRel uq huq
    have sRest := renderUnions_substRel rest hrest
    have whole := (((SubstRel.const ex (by simpa using hex)).append
      (SubstRel.constLeft ['('] (by decide) sBody)).append
      (SubstRel.const [')'] (by decide))).append sRest
    rw [renderUnions_cons_eq, renderUnions_cons_eq, argsU_cons_eq]
    simpa [List.append_assoc] using whole
end

/-! ## Claims -/

/-- An 11-field table: large enough to trigger the Nop columns
abbreviation. -/
def elevenFieldTable : Table :=
  ⟨"tbl".toList, "t".toList,
    ["a", "b", "c", "d", "e", "f", "g", "h", "i", "j", "k"].map
      (fun nm => Field.mk nm.toList nm.toList [])⟩

/-- C1 (counterexample): a model-bound query with more than 10 fields and
no explicit columns renders `t.'11 columns'` under the Nop formatter but
the full column list in literal mode, so with its 0 bound arguments the
two renders differ outside placeholder positions — the literal text is not
the placeholder text with the arguments substituted. -/
theorem nop_abbreviation_counterexample :
    (SelectQuery.new.Model ⟨elevenFieldTable, .nil⟩).AppendQuery .nop
        = .ok "SELECT t.'11 columns' FROM tbl AS t".toList ∧
      (SelectQuery.new.Model ⟨elevenFieldTable, .nil⟩).AppendQuery .literal
        = .ok "SELECT t.a, t.b, t.c, t.d, t.e, t.f, t.g, t.h, t.i, t.j, t.k FROM tbl AS t".toList ∧
      argsOf (SelectQuery.new.Model ⟨elevenFieldTable, .nil⟩) = [] ∧
      "SELECT t.a, t.b, t.c, t.d, t.e, t.f, t.g, t.h, t.i, t.j, t.k FROM tbl AS t".toList
        ≠ subst "SELECT t.'11 columns' FROM tbl AS t".toList
            (argsOf (SelectQuery.new.Model ⟨elevenFieldTable, .nil⟩)) := by
  refine ⟨rfl, rfl, rfl, ?_⟩
  decide

/-- C1 (amended): for a well-formed built query (templates bind exactly as
many arguments as their `?` marks, identifiers and separators `?`-free
without trailing spaces, quoted literals plausible, and no Nop
`'N columns'` abbreviation triggered), successful placeholder and literal
renders agree structurally: the placeholder text has exactly one `?` per
bound argument, and the literal text is the placeholder text with the
dialect-quoted literals substituted verbatim at exactly those positions. -/
theorem placeholder_literal_agreement (q : SelectQuery) (tn tl : Str)
    (hwf : wfQ q = true)
    (hn : q.AppendQuery .nop = .ok tn) (hl : q.AppendQuery .literal = .ok tl) :
    phCount tn = (argsOf q).length ∧ tl = subst tn (argsOf q) := by
  unfold SelectQuery.AppendQuery SelectQuery.appendQueryE at hn hl
  cases hfe : findErr q with
  | some er =>
    rw [hfe] at hn
    cases hn
  | none =>
    rw [hfe] at hn hl
    have h1 : renderBody q .nop false = tn := by
      injection hn
    have h2 : renderBody q .literal false = tl := by
      injection hl
    have hrel := renderBody_substRel q hwf
    rw [h1, h2] at hrel
    exact hrel

/-- C1 witness: the query-hook test query `SELECT 1 WHERE (? = ?)` with
arguments `'foo', 'bar'`. -/
theorem placeholder_literal_agreement_witness :
    wfQ ((SelectQuery.new.ColumnExpr "1".toList (some [])).Where "? = ?".toList
        (some ["'foo'".toList, "'bar'".toList])) = true ∧
      ((SelectQuery.new.ColumnExpr "1".toList (some [])).Where "? = ?".toList
        (some ["'foo'".toList, "'bar'".toList])).AppendQuery .nop
        = .ok "SELECT 1 WHERE (? = ?)".toList ∧
      ((SelectQuery.new.ColumnExpr "1".toList (some [])).Where "? = ?".toList
        (some ["'foo'".toList, "'bar'".toList])).AppendQuery .literal
        = .ok "SELECT 1 WHERE ('foo' = 'bar')".toList ∧
      phCount "SELECT 1 WHERE (? = ?)".toList =
        (argsOf ((SelectQuery.new.ColumnExpr "1".toList (some [])).Where "? = ?".toList
          (some ["'foo'".toList, "'bar'".toList]))).length ∧
      "SELECT 1 WHERE ('foo' = 'bar')".toList =
        subst "SELECT 1 WHERE (? = ?)".toList
          (argsOf ((SelectQuery.new.ColumnExpr "1".toList (some [])).Where "? = ?".toList
            (some ["'foo'".toList, "'bar'".toList]))) := by
  have h := placeholder_literal_agreement
    ((SelectQuery.new.ColumnExpr "1".toList (some [])).Where "? = ?".toList
      (some ["'foo'".toList, "'bar'".toList]))
    "SELECT 1 WHERE (? = ?)".toList "SELECT 1 WHERE ('foo' = 'bar')".toList
    (by decide) rfl rfl
  exact ⟨by decide, rfl, rfl, h.1, h.2⟩

/-- Modelled from the spec: the column node the relation-scoping call
stores for an explicitly scoped column of a has-one join (§4.3):
`alias.col AS alias__col`. -/
def scopedRelColumn (al col : Str) : QueryWithArgs :=
  UnsafeIdent (al ++ '.' :: col ++ " AS ".toList ++ al ++ "__".toList ++ col)

/-- The column area with a single has-one join appended after a nonempty
base column list. -/
theorem appendColumnsB_single_join (f : Fmter) (c : List QueryWithArgs)
    (t : Option Table) (rootTbl : Table) (j : Join)
    (hbase : baseCols c t f ≠ [] ∧ endsOkay (baseCols c t f))
    (hflat : modelHasOneJoins (some ⟨rootTbl, .cons j .nil⟩) = [j])
    (hs : hasOneColumnsB f j ≠ [] ∧ endsOkay (hasOneColumnsB f j)) :
    appendColumnsB c t (some ⟨rootTbl, .cons j .nil⟩) f
      = baseCols c t f ++ ", ".toList ++ hasOneColumnsB f j := by
  rw [appendColumnsB_glue, hflat, decide_eq_true hbase.1]
  have hglue : colsGlue f [j] true = ", ".toList ++ hasOneColumnsB f j := by
    simp [colsGlue]
  rw [hglue]
  have hok : endsOkay (baseCols c t f ++ (", ".toList ++ hasOneColumnsB f j)) :=
    endsOkay_append _ (endsOkay_append _ hs.2 hs.1) (by simp [hs.1])
  rw [trimSuffix_noop _ hok]
  simp [List.append_assoc]

/-- C8: in the rendered SELECT list, a has-one join with an explicitly
scoped column list contributes exactly those scoped columns
(`alias.col AS alias__col`, in order) and none of the related table's
other columns; with no scoped list it contributes every related field,
aliased `<relation-alias>__<field>`. -/
theorem has_one_columns_exact (f : Fmter) (c : List QueryWithArgs) (t : Option Table)
    (rootTbl : Table) (nm : Str) (rt : RelType) (jt : Table) (al : Str)
    (cols : List Str) (cond : QueryWithArgs)
    (hrt : rt = RelType.hasOne ∨ rt = RelType.belongsTo)
    (hbase : baseCols c t f ≠ [] ∧ endsOkay (baseCols c t f))
    (hcols : ∀ s2 ∈ cols, s2 ≠ [] ∧ endsOkay s2)
    (hflds : ∀ fl ∈ jt.fields, fl.name ≠ [] ∧ endsOkay fl.name) :
    (cols ≠ [] →
      appendColumnsB c t
          (some ⟨rootTbl, .cons (Join.mk nm rt jt al (cols.map (scopedRelColumn al)) cond .nil) .nil⟩) f
        = baseCols c t f ++ ", ".toList ++
            commaSep (cols.map (fun s2 =>
              al ++ '.' :: s2 ++ " AS ".toList ++ al ++ "__".toList ++ s2))) ∧
    (jt.fields ≠ [] →
      appendColumnsB c t
          (some ⟨rootTbl, .cons (Join.mk nm rt jt al [] cond .nil) .nil⟩) f
        = baseCols c t f ++ ", ".toList ++
            commaSep (jt.fields.map (fun fl =>
              al ++ '.' :: fl.sqlName ++ " AS ".toList ++
                (al ++ "__".toList ++ fl.name)))) := by
  constructor
  · intro hcne
    have hflat : modelHasOneJoins
        (some ⟨rootTbl, .cons (Join.mk nm rt jt al (cols.map (scopedRelColumn al)) cond .nil) .nil⟩)
        = [Join.mk nm rt jt al (cols.map (scopedRelColumn al)) cond .nil] := by
      rcases hrt with h1 | h1 <;> subst h1 <;> rfl
    have hs1 : hasOneColumnsB f (Join.mk nm rt jt al (cols.map (scopedRelColumn al)) cond .nil)
        = commaSep (cols.map (fun s2 =>
            al ++ '.' :: s2 ++ " AS ".toList ++ al ++ "__".toList ++ s2)) := by
      unfold hasOneColumnsB
      rw [if_neg (by simpa [Join.columns] using hcne)]
      show commaSep ((cols.map (scopedRelColumn al)).map (fun n => n.render f)) = _
      rw [List.map_map]
      rfl
    have hsp : hasOneColumnsB f (Join.mk nm rt jt al (cols.map (scopedRelColumn al)) cond .nil) ≠ [] ∧
        endsOkay (hasOneColumnsB f (Join.mk nm rt jt al (cols.map (scopedRelColumn al)) cond .nil)) := by
      rw [hs1]
      unfold commaSep
      apply sepJoin_endsOkay
      · intro x hx
        rw [List.mem_map] at hx
        obtain ⟨s2, hs2, hx2⟩ := hx
        subst hx2
        have hp := hcols s2 hs2
        have := endsOkay_extend (al ++ '.' :: s2 ++ " AS ".toList ++ al ++ "__".toList)
          s2 hp.2 hp.1
        exact ⟨this.2, this.1⟩
      · simp [hcne]
    rw [appendColumnsB_single_join f c t rootTbl _ hbase hflat hsp, hs1]
  · intro hfne
    have hflat : modelHasOneJoins
        (some ⟨rootTbl, .cons (Join.mk nm rt jt al [] cond .nil) .nil⟩)
        = [Join.mk nm rt jt al [] cond .nil] := by
      rcases hrt with h1 | h1 <;> subst h1 <;> rfl
    have hs1 : hasOneColumnsB f (Join.mk nm rt jt al [] cond .nil)
        = commaSep (jt.fields.map (fun fl =>
            al ++ '.' :: fl.sqlName ++ " AS ".toList ++
              (al ++ "__".toList ++ fl.name))) := by
      unfold hasOneColumnsB
      rw [if_pos (by simp [Join.columns])]
      rfl
    have hsp : hasOneColumnsB f (Join.mk nm rt jt al [] cond .nil) ≠ [] ∧
        endsOkay (hasOneColumnsB f (Join.mk nm rt jt al [] cond .nil)) := by
      rw [hs1]
      unfold commaSep
      apply sepJoin_endsOkay
      · intro x hx
        rw [List.mem_map] at hx
        obtain ⟨fl, hfl, hx2⟩ := hx
        subst hx2
        have hp := hflds fl hfl
        have e1 := endsOkay_extend (al ++ "__".toList) fl.name hp.2 hp.1
        have e2 := endsOkay_extend (al ++ '.' :: fl.sqlName ++ " AS ".toList) _ e1.1 e1.2
        exact ⟨e2.2, e2.1⟩
      · simp [hfne]
    rw [appendColumnsB_single_join f c t rootTbl _ hbase hflat hsp, hs1]

/-- C8 witness: base column `1`, alias `ja`; scoped columns `x, y` render
exactly `ja.x AS ja__x, ja.y AS ja__y`; with no scoped columns the single
related field `nm` (SQL name `nm_sql`) renders `ja.nm_sql AS ja__nm`. -/
theorem has_one_columns_exact_witness :
    appendColumnsB [SafeQuery "1".toList (some [])] none
        (some ⟨⟨"rel_tbl".toList, "ja".toList, [⟨"nm".toList, "nm_sql".toList, []⟩]⟩,
          .cons (Join.mk "Rel".toList .hasOne
            ⟨"rel_tbl".toList, "ja".toList, [⟨"nm".toList, "nm_sql".toList, []⟩]⟩
            "ja".toList
            (["x".toList, "y".toList].map (scopedRelColumn "ja".toList))
            (UnsafeIdent "c".toList) .nil) .nil⟩) .literal
      = "1, ja.x AS ja__x, ja.y AS ja__y".toList ∧
    appendColumnsB [SafeQuery "1".toList (some [])] none
        (some ⟨⟨"rel_tbl".toList, "ja".toList, [⟨"nm".toList, "nm_sql".toList, []⟩]⟩,
          .cons (Join.mk "Rel".toList .hasOne
            ⟨"rel_tbl".toList, "ja".toList, [⟨"nm".toList, "nm_sql".toList, []⟩]⟩
            "ja".toList [] (UnsafeIdent "c".toList) .nil) .nil⟩) .literal
      = "1, ja.nm_sql AS ja__nm".toList := by
  have h := has_one_columns_exact .literal [SafeQuery "1".toList (some [])] none
    ⟨"rel_tbl".toList, "ja".toList, [⟨"nm".toList, "nm_sql".toList, []⟩]⟩
    "Rel".toList .hasOne
    ⟨"rel_tbl".toList, "ja".toList, [⟨"nm".toList, "nm_sql".toList, []⟩]⟩
    "ja".toList ["x".toList, "y".toList] (UnsafeIdent "c".toList)
    (Or.inl rfl) (by exact ⟨by decide, by decide⟩)
    (by intro s2 hs2; fin_cases hs2 <;> exact ⟨by decide, by decide⟩)
    (by intro fl hfl; fin_cases hfl; exact ⟨by decide, by decide⟩)
  exact ⟨(h.1 (by decide)).trans (by decide), (h.2 (by decide)).trans (by decide)⟩

/-- The query with its ORDER BY, LIMIT, OFFSET and FOR clauses cleared. -/
def clearTail : SelectQuery → SelectQuery
  | .mk e d c t tm mt ts js w g h _ _ _ _ u => .mk e d c t tm mt ts js w g h [] 0 0 none u

/-- The COUNT rendering per the (amended) spec: with GROUP BY or DISTINCT
the query — rendered without its ORDER BY/LIMIT/OFFSET/FOR clauses — is
wrapped as a CTE and its rows counted; otherwise `count(*)` replaces the
column list while the FROM/JOIN/WHERE/HAVING blocks are preserved and
ORDER BY, LIMIT and OFFSET are omitted. -/
def countRenderSpec (q : SelectQuery) (f : Fmter) : Str :=
  if !q.group.isEmpty || q.distinctOn.isSome then
    "WITH _count_wrapper AS (".toList ++ renderBody (clearTail q) f false ++
      ") SELECT count(*) FROM _count_wrapper".toList
  else
    (if q.unions.isNil then [] else ['(']) ++
    "SELECT ".toList ++ "count(*)".toList ++
    appendTablesB q.table q.modelTable q.tables f ++
    hasOneJoinsB q.tableModel f ++ joinsB q.joins f ++ whereB q.whereList f ++
    havingB q.having f ++
    (if q.unions.isNil then [] else ')' :: renderUnions q.unions f)

/-- C3 (counterexample): with GROUP BY and LIMIT 10, the COUNT render's
CTE body omits the LIMIT (and any ORDER BY/OFFSET), so Count does not wrap
the full original query: the render differs from the original query
wrapped as a CTE. -/
theorem count_cte_not_full_wrap_counterexample :
    renderBody ((((SelectQuery.new.ColumnExpr "x".toList (some [])).TableExpr
        "t".toList (some [])).Group ["g".toList]).Limit 10) .literal true
      = "WITH _count_wrapper AS (SELECT x FROM t GROUP BY g) SELECT count(*) FROM _count_wrapper".toList ∧
    renderBody ((((SelectQuery.new.ColumnExpr "x".toList (some [])).TableExpr
        "t".toList (some [])).Group ["g".toList]).Limit 10) .literal false
      = "SELECT x FROM t GROUP BY g LIMIT 10".toList ∧
    renderBody ((((SelectQuery.new.ColumnExpr "x".toList (some [])).TableExpr
        "t".toList (some [])).Group ["g".toList]).Limit 10) .literal true
      ≠ "WITH _count_wrapper AS (".toList ++
          renderBody ((((SelectQuery.new.ColumnExpr "x".toList (some [])).TableExpr
            "t".toList (some [])).Group ["g".toList]).Limit 10) .literal false ++
          ") SELECT count(*) FROM _count_wrapper".toList := by
  refine ⟨rfl, rfl, ?_⟩
  decide

/-- C3 (amended): the COUNT render equals the spec-assembled COUNT shape:
for a query with GROUP BY or DISTINCT, the original query rendered without
its ORDER BY/LIMIT/OFFSET/FOR clauses is wrapped as the CTE
`_count_wrapper` and its rows counted; otherwise `count(*)` replaces the
column list, the FROM/JOIN/WHERE/HAVING blocks are preserved, and
ORDER BY, LIMIT, OFFSET are omitted. -/
theorem count_render_eq (q : SelectQuery) (f : Fmter) :
    renderBody q f true = countRenderSpec q f := by
  cases q with
  | mk e d c t tm mt ts js w g h o l of s u =>
    rw [renderBody_mk_eq]
    unfold countRenderSpec
    simp only [SelectQuery.group, SelectQuery.distinctOn, SelectQuery.unions,
      SelectQuery.table, SelectQuery.modelTable, SelectQuery.tables,
      SelectQuery.tableModel, SelectQuery.joins, SelectQuery.whereList,
      SelectQuery.having]
    by_cases hgd : (!g.isEmpty || d.isSome) = true
    · rw [if_pos hgd]
      have hclear : clearTail (.mk e d c t tm mt ts js w g h o l of s u)
          = .mk e d c t tm mt ts js w g h [] 0 0 none u := rfl
      rw [hclear, renderBody_false_eq]
      simp only [hgd, Bool.true_and, Bool.not_true, Bool.and_false, if_true,
        Bool.false_eq_true, if_false]
      have ho : orderB [] f ++ limitB 0 ++ offsetB 0 ++ forB none f = [] := by
        simp [orderB, limitB, offsetB, forB]
      rw [ho]
      simp [List.append_assoc]
    · have hgd2 : (!g.isEmpty || d.isSome) = false := by
        simpa using hgd
      rw [Bool.or_eq_false_iff] at hgd2
      have hg0 : g = [] := by
        have := hgd2.1
        simp at this
        exact this
      have hd0 : d = none := by
        have := hgd2.2
        simpa [Option.isSome_iff_exists] using this
      subst hg0
      subst hd0
      simp [distinctPart, groupB, List.append_assoc]

/-- C2 (counterexample): after `JoinOn` on a join-less query has recorded
the sticky error, `Limit 5` still mutates the query state (the limit
changes from 0 to 5), so the subsequent builder call is not a no-op; and a
later failing `JoinOn` overwrites an earlier `Relation` error, so the
stored error is not the first one. -/
theorem joinOn_error_not_noop_counterexample :
    ((SelectQuery.new.JoinOn "x = y".toList none).Limit 5).limit = 5 ∧
    (SelectQuery.new.JoinOn "x = y".toList none).limit = 0 ∧
    (SelectQuery.new.JoinOn "x = y".toList none).err
        = some "bun: query has no joins".toList ∧
    ((SelectQuery.new.JoinOn "x = y".toList none).Limit 5)
        ≠ SelectQuery.new.JoinOn "x = y".toList none ∧
    ((SelectQuery.new.Model ⟨⟨"tbl".toList, "t".toList, []⟩, .nil⟩).Relation "R".toList).err
        = some (SelectQuery.relationErr "tbl".toList "R".toList) ∧
    (((SelectQuery.new.Model ⟨⟨"tbl".toList, "t".toList, []⟩, .nil⟩).Relation "R".toList).JoinOn
          "x = y".toList none).err
        = some "bun: query has no joins".toList ∧
    SelectQuery.relationErr "tbl".toList "R".toList ≠ "bun: query has no joins".toList := by
  refine ⟨rfl, rfl, rfl, ?_, rfl, rfl, by decide⟩
  intro h
  exact absurd (congrArg SelectQuery.limit h) (by decide)

/-- C2 (amended): once a validation error is stored, every render call
returns that stored error without producing SQL (the builder stays
chainable, but builder calls may still mutate clause state and a later
validation failure overwrites the stored error). -/
theorem stored_error_short_circuits_render (q : SelectQuery) (f : Fmter)
    (count : Bool) (e : Str) (h : q.err = some e) :
    q.appendQueryE f count = .error e := by
  cases q with
  | mk e0 d c t tm mt ts js w g h0 o l of s u =>
    simp only [SelectQuery.err] at h
    simp only [SelectQuery.appendQueryE, findErr, h]

/-- C2 witness: the concrete join-less `JoinOn` error short-circuits
`AppendQuery`. -/
theorem stored_error_short_circuits_render_witness :
    (SelectQuery.new.JoinOn "x = y".toList none).err
        = some "bun: query has no joins".toList ∧
    (SelectQuery.new.JoinOn "x = y".toList none).appendQueryE .literal false
        = .error "bun: query has no joins".toList :=
  ⟨rfl, stored_error_short_circuits_render _ .literal false _ rfl⟩

/-- C4 (counterexample): with an empty map as the first row followed by a
non-empty row, the rendered column list is empty — the key set is taken
from the first row, not from the first non-empty row (whose sorted key set
here is `a`). -/
theorem first_row_empty_map_columns_counterexample :
    (MapSliceModel.mk [[], [("a".toList, "1".toList)]] none).appendColumnsM .literal
        = .ok [] ∧
    commaSep ((sortKeys ([("a".toList, "1".toList)].map Prod.fst)).map appendIdent)
        = "a".toList ∧
    ([] : Str) ≠ "a".toList := ⟨rfl, rfl, by decide⟩

/-- C4 (amended): for a fresh dynamic-row model, an empty source sequence
fails both column and value rendering with the "map slice is empty" error;
otherwise the column list is the lexicographically sorted key set of the
first row rendered as identifiers, and (in literal mode, plain-parenthesis
dialect) each row's values are looked up by key in that same fixed order. -/
theorem map_slice_columns_and_values (m : MapSliceModel) (f : Fmter)
    (h : m.keys = none) :
    (m.slice = [] →
      m.appendColumnsM f = .error "bun: map slice is empty".toList ∧
      m.appendValuesM f false = .error "bun: map slice is empty".toList) ∧
    (∀ first rest, m.slice = first :: rest →
      m.appendColumnsM f
          = .ok (commaSep ((sortKeys (first.map Prod.fst)).map appendIdent)) ∧
      m.appendValuesM .literal false
          = .ok ("VALUES (".toList ++
              sepJoin "), (".toList
                (m.slice.map (mapRowVals (sortKeys (first.map Prod.fst)))) ++
              [')'])) := by
  constructor
  · intro hs
    constructor
    · simp only [MapSliceModel.appendColumnsM, MapSliceModel.initKeysE, h, hs]
      rfl
    · simp only [MapSliceModel.appendValuesM, MapSliceModel.initKeysE, h, hs]
      rfl
  · intro first rest hs
    constructor
    · simp only [MapSliceModel.appendColumnsM, MapSliceModel.initKeysE, h, hs]
      rfl
    · simp only [MapSliceModel.appendValuesM, MapSliceModel.initKeysE, h, hs,
        Except.map, Fmter.isNop]
      rfl

/-- C4 witness: the empty source errors; two rows with keys `b, a` render
columns `a, b` and values in that order. -/
theorem map_slice_columns_and_values_witness :
    (MapSliceModel.mk [] none).appendColumnsM .literal
        = .error "bun: map slice is empty".toList ∧
    (MapSliceModel.mk
        [[("b".toList, "2".toList), ("a".toList, "1".toList)],
         [("b".toList, "4".toList), ("a".toList, "3".toList)]] none).appendColumnsM .literal
        = .ok "a, b".toList ∧
    (MapSliceModel.mk
        [[("b".toList, "2".toList), ("a".toList, "1".toList)],
         [("b".toList, "4".toList), ("a".toList, "3".toList)]] none).appendValuesM .literal false
        = .ok "VALUES (1, 2), (3, 4)".toList := by
  refine ⟨((map_slice_columns_and_values _ .literal rfl).1 rfl).1, ?_, ?_⟩
  · exact (((map_slice_columns_and_values _ .literal rfl).2 _ _ rfl).1).trans (by rfl)
  · exact (((map_slice_columns_and_values _ .literal rfl).2 _ _ rfl).2).trans (by rfl)

/-- C5 (code bug): in placeholder mode the dynamic-row value encoder emits
one `?` per declared column without consulting any row's contents, but
returns before appending the closing parenthesis: the output is
`VALUES (?, ?` with no `)`. -/
theorem nop_values_missing_close_paren :
    (MapSliceModel.mk [[("a".toList, "1".toList), ("b".toList, "2".toList)]] none).appendValuesM
        .nop false = .ok "VALUES (?, ?".toList ∧
    (MapSliceModel.mk
        [[("a".toList, "x".toList), ("b".toList, "y".toList)],
         [("a".toList, "z".toList), ("b".toList, "w".toList)]] none).appendValuesM
        .nop false = .ok "VALUES (?, ?".toList := ⟨rfl, rfl⟩

/-- C6: with the scan branch running, both operations complete, the count
variable (the `Count` result, i.e. its value on success and 0 on failure)
is always returned, and the returned error is the first one recorded —
whichever operation records first wins and a later error never overwrites
it. -/
theorem scan_and_count_first_error (q : SelectQuery) (se : Option Str)
    (cr : Except Str Int) (ord : Bool) (h : 0 ≤ q.limit) :
    (q.scanAndCount se cr ord).1 = (match cr with | .ok n => n | .error _ => 0) ∧
    (q.scanAndCount se cr ord).2 =
      (if ord then
        match se with
        | some es => some es
        | none => countErrOf cr
      else
        match countErrOf cr with
        | some ec => some ec
        | none => se) := by
  have hrun : scanBranchRuns q.limit = true := by
    simp [scanBranchRuns, h]
  cases ord <;> cases se <;> cases cr <;>
    simp [SelectQuery.scanAndCount, hrun, recordErr, countErrOf]

/-- C6 witness: both operations fail; with the scan error recorded first
the scan error is returned, and the count value (0, since `Count` failed)
is returned alongside it. -/
theorem scan_and_count_first_error_witness :
    (0 : Int) ≤ (SelectQuery.new.Limit 10).limit ∧
    (SelectQuery.new.Limit 10).scanAndCount (some "scan failed".toList)
        (.error "count failed".toList) true = (0, some "scan failed".toList) := by
  refine ⟨by decide, ?_⟩
  have h := scan_and_count_first_error (SelectQuery.new.Limit 10)
    (some "scan failed".toList) (.error "count failed".toList) true (by decide)
  exact Prod.ext h.1 h.2

/-- C7: a negative limit (e.g. set by `Limit(-1)`) makes `ScanAndCount`
skip the scan branch entirely — the result is independent of any scan
outcome and carries only the count result and the count error — while a
non-negative limit runs the scan branch. -/
theorem negative_limit_skips_scan (q : SelectQuery) (se se' : Option Str)
    (cr : Except Str Int) (ord ord' : Bool) :
    ((SelectQuery.Limit (-1) q).limit = -1) ∧
    (q.limit < 0 →
      scanBranchRuns q.limit = false ∧
      q.scanAndCount se cr ord
          = ((match cr with | .ok n => n | .error _ => 0), countErrOf cr) ∧
      q.scanAndCount se cr ord = q.scanAndCount se' cr ord') ∧
    (0 ≤ q.limit → scanBranchRuns q.limit = true) := by
  refine ⟨?_, ?_, ?_⟩
  · cases q with
    | mk e d c t tm mt ts js w g h o l of s u =>
      simp only [SelectQuery.Limit, SelectQuery.limit]
      decide
  · intro hneg
    have hrun : scanBranchRuns q.limit = false := by
      simp [scanBranchRuns]
      omega
    refine ⟨hrun, ?_, ?_⟩ <;>
      cases cr <;> simp [SelectQuery.scanAndCount, hrun, recordErr, countErrOf]
  · intro hpos
    simp [scanBranchRuns, hpos]

/-- C7 witness: at `Limit (-1)` and a successful count of 7, the scan
outcome is ignored and `(7, none)` is returned; at limit 0 the scan branch
runs. -/
theorem negative_limit_skips_scan_witness :
    (SelectQuery.new.Limit (-1)).scanAndCount (some "scan failed".toList) (.ok 7) true
        = (7, none) ∧
    scanBranchRuns (SelectQuery.new.Limit (-1)).limit = false ∧
    scanBranchRuns SelectQuery.new.limit = true := by
  have h := negative_limit_skips_scan (SelectQuery.new.Limit (-1))
    (some "scan failed".toList) none (.ok 7) true true
  have h2 := negative_limit_skips_scan SelectQuery.new
    (some "scan failed".toList) none (.ok 7) true true
  exact ⟨(h.2.1 (by decide)).2.1, (h.2.1 (by decide)).1, h2.2.2 (by decide)⟩

/-- C9 (counterexample): rendering-path named-placeholder expansion mutates
the AST: `AppendArg "Columns"` on a `ValuesQuery` over an empty map slice
stores the expansion failure into the sticky error field, so the query
value after the render call differs from the one before it. -/
theorem append_arg_mutates_query_counterexample :
    ((ValuesQuery.mk none (some (.mapSlice ⟨[], none⟩)) [] [] false false).AppendArgM
        .nop [] "Columns".toList).1.err = some "bun: map slice is empty".toList ∧
    (ValuesQuery.mk none (some (.mapSlice ⟨[], none⟩)) [] [] false false).err = none ∧
    ((ValuesQuery.mk none (some (.mapSlice ⟨[], none⟩)) [] [] false false).AppendArgM
        .nop [] "Columns".toList).1
      ≠ ValuesQuery.mk none (some (.mapSlice ⟨[], none⟩)) [] [] false false := by
  refine ⟨rfl, rfl, ?_⟩
  intro h
  exact absurd (congrArg ValuesQuery.err h) (by decide)

/-- C9 (amended): a render call never mutates the query except through
named-placeholder expansion failure: `AppendArg` either leaves the query
value unchanged, or — exactly when expanding the column list fails — sets
only the sticky error field (first error kept) to that failure. -/
theorem append_arg_mutation_characterisation (q : ValuesQuery) (f : Fmter)
    (b : Str) (name : Str) :
    (q.AppendArgM f b name).1 = q ∨
    (∃ e, q.AppendColumnsM f = .error e ∧
      (q.AppendArgM f b name).1 = { q with err := setErrF q.err e }) := by
  by_cases hn : name = "Columns".toList
  · subst hn
    cases hc : q.AppendColumnsM f with
    | error e =>
      have harg : (q.AppendArgM f b "Columns".toList).1
          = { q with err := setErrF q.err e } := by
        simp [ValuesQuery.AppendArgM, hc]
      exact Or.inr ⟨e, rfl, harg⟩
    | ok bb =>
      refine Or.inl ?_
      simp [ValuesQuery.AppendArgM, hc]
  · refine Or.inl ?_
    unfold ValuesQuery.AppendArgM
    rw [if_neg hn]

/-- C10 (code bug): the typed-sequence value encoder appends the `::` cast
separator unconditionally: a field with no declared user SQL type renders
as `5::` (a dangling cast), while a field with a declared type renders
`7::int4` as specified. -/
theorem unconditional_cast_suffix :
    (ValuesQuery.mk none (some (.tableStruct ["5".toList]))
        [⟨"n".toList, "n".toList, []⟩] [] false false).AppendQueryM .literal
      = .ok "VALUES (5::)".toList ∧
    (ValuesQuery.mk none (some (.tableStruct ["7".toList]))
        [⟨"n".toList, "n".toList, "int4".toList⟩] [] false false).AppendQueryM .literal
      = .ok "VALUES (7::int4)".toList := ⟨rfl, rfl⟩

end Bun
